import Mathlib

/-!
Verification of a 9×9 Sudoku solver (src/main.py).

The grid is a list of rows of natural numbers (0 = empty cell, 1–9 = digit).
Python sets of candidate digits are modelled as ascending lists of digits
(the spec fixes "lowest digit first" as the deterministic iteration order);
the in-place mutation of the Python code is modelled by explicit state
passing, and the unbounded `while True` / recursive search by a fuel
parameter of 82, which is provably sufficient for 9×9 grids.
-/

namespace Sudoku

abbrev Grid := List (List Nat)

/-- The reference set {1,…,9} of digits (`ref` in the source). -/
def digits : List Nat := [1, 2, 3, 4, 5, 6, 7, 8, 9]

/-- `sudoku[i][j]` (out-of-range reads default to 0; all uses are in range). -/
def getCell (g : Grid) (i j : Nat) : Nat := (g.getD i []).getD j 0

/-- `sudoku[i][j] = v` (in-place assignment, modelled functionally). -/
def setCell (g : Grid) (i j v : Nat) : Grid := g.set i ((g.getD i []).set j v)

/-- The grid is a 9×9 array. -/
def Shape9 (g : Grid) : Prop := g.length = 9 ∧ ∀ i, i < 9 → (g.getD i []).length = 9

/-- Every cell value lies in [0,9] (the data-model invariant of the spec). -/
def WF (g : Grid) : Prop := ∀ i, i < 9 → ∀ j, j < 9 → getCell g i j ≤ 9

instance : DecidablePred Shape9 := fun g => by unfold Shape9; infer_instance

instance : DecidablePred WF := fun g => by unfold WF; infer_instance

/-- `get_fields(sudoku)`: the nine 3×3 fields, in row-major field order. -/
def get_fields (g : List (List α)) : List (List (List α)) :=
  (List.range 3).flatMap (fun i => (List.range 3).map (fun j =>
    ((g.drop (i * 3)).take 3).map (fun row => (row.drop (j * 3)).take 3)))

/-- `get_field(i, j, sudoku)` with `flatten=True` (the only mode ever used). -/
def get_field (i j : Nat) (g : List (List α)) : List α :=
  ((get_fields g).getD ((i / 3) * 3 + (j / 3)) []).flatten

/-- `get_row(i, sudoku)`. -/
def get_row (i : Nat) (g : List (List α)) : List α := g.getD i []

/-- `get_column(j, sudoku)` (the row default only matters out of range). -/
def get_column [Inhabited α] (j : Nat) (g : List (List α)) : List α :=
  g.map (fun row => row.getD j default)

/-- `get_possible_values(i, j, sudoku)`: {1..9} minus field, row, column.
Python's digit set is modelled as the ascending list of its members. -/
def get_possible_values (i j : Nat) (g : Grid) : List Nat :=
  digits.filter (fun d =>
    !(get_field i j g).contains d && !(get_row i g).contains d &&
      !(get_column j g).contains d)

/-- `get_possibilities(sudoku)`: the 9×9 candidate table; filled cells map to
the empty set. -/
def get_possibilities (g : Grid) : List (List (List Nat)) :=
  (List.range 9).map (fun i => (List.range 9).map (fun j =>
    if digits.contains (getCell g i j) then [] else get_possible_values i j g))

/-- Entry (i,j) of a candidate table. -/
def getPoss (p : List (List (List Nat))) (i j : Nat) : List Nat :=
  (p.getD i []).getD j []

/-- `other_contains(iterable, index, item)`: some entry other than `index`
contains `item`.  (In every call the iterable is a row/column/field of a
candidate table, so Python's `type(set_curr) == set` test is always true.) -/
def other_contains (l : List (List Nat)) (index item : Nat) : Bool :=
  l.enum.any (fun p => p.1 != index && p.2.contains item)

/-- `can_be_placed_elsewhere(i, j, nr, poss)`. -/
def can_be_placed_elsewhere (i j nr : Nat) (poss : List (List (List Nat))) : Bool :=
  other_contains (get_column j poss) i nr &&
    other_contains (get_row i poss) j nr &&
      other_contains (get_field i j poss) ((i % 3) * 3 + (j % 3)) nr

/-- Loop body of `find_next_steps` for one cell (i,j): a single-candidate
cell yields its candidate; otherwise the first candidate (in iteration
order) that cannot be placed elsewhere is emitted and the scan stops. -/
def cell_steps (i j : Nat) (poss : List (List (List Nat))) : List (Nat × Nat × Nat) :=
  let current := getPoss poss i j
  if current.length = 1 then [(i, j, current.headD 0)]
  else
    match current.find? (fun d => !can_be_placed_elsewhere i j d poss) with
    | some d => [(i, j, d)]
    | none => []

/-- `find_next_steps(sudoku)`. -/
def find_next_steps (g : Grid) : List (Nat × Nat × Nat) :=
  let poss := get_possibilities g
  (List.range 9).flatMap (fun i => (List.range 9).flatMap (fun j =>
    cell_steps i j poss))

/-- `perform_steps(steps, sudoku)`. -/
def perform_steps (steps : List (Nat × Nat × Nat)) (g : Grid) : Grid :=
  steps.foldl (fun g s => setCell g s.1 s.2.1 s.2.2) g

/-- Membership test `set(i) == ref` of the source: the list, viewed as a
set, equals {1..9}. -/
def set_eq_ref (l : List Nat) : Bool :=
  digits.all l.contains && l.all digits.contains

/-- Python's `zip(*arr)` on a 9×9 array: the list of the nine columns. -/
def zip_star (g : Grid) : Grid := (List.range 9).map (fun j => get_column j g)

/-- `is_valid(sudoku)`. -/
def is_valid (g : Grid) : Bool :=
  g.all set_eq_ref && (zip_star g).all set_eq_ref &&
    (get_fields g).all (fun f => set_eq_ref f.flatten)

/-- All 81 cell coordinates in row-major order. -/
def allCells : List (Nat × Nat) :=
  (List.range 9).flatMap (fun i => (List.range 9).map (fun j => (i, j)))

/-- `next_step(sudoku)` of `brute_force`: the first (row-major) cell whose
value is not a digit, together with its possible values. -/
def next_step (g : Grid) : Option (Nat × Nat × List Nat) :=
  (allCells.find? (fun p => !digits.contains (getCell g p.1 p.2))).map
    (fun p => (p.1, p.2, get_possible_values p.1 p.2 g))

/-- The `for nr in nrs` loop of `try_combinations`, abstracted over the
recursive call `tc`: on exhaustion the cell is reset to 0 and the branch
fails. -/
def try_nrs_aux (tc : Grid → Bool × Grid) (i j : Nat) :
    List Nat → Grid → Bool × Grid
  | [], g => (false, setCell g i j 0)
  | nr :: rest, g =>
    let r := tc (setCell g i j nr)
    if r.1 then r else try_nrs_aux tc i j rest r.2

/-- `try_combinations(sudoku)` of `brute_force`, with explicit fuel (the
Python recursion depth is bounded by the number of empty cells). Returns
the Python return value together with the final state of the grid. -/
def try_combinations : Nat → Grid → Bool × Grid
  | 0, g => (false, g)
  | fuel + 1, g =>
    match next_step g with
    | none => (is_valid g, g)
    | some (i, j, nrs) => try_nrs_aux (try_combinations fuel) i j nrs g

/-- The digit loop at a given fuel level. -/
def try_nrs (fuel i j : Nat) (nrs : List Nat) (g : Grid) : Bool × Grid :=
  try_nrs_aux (try_combinations fuel) i j nrs g

/-- `brute_force(sudoku)`: fuel 82 exceeds the number of empty cells of any
9×9 grid, so the fuel never runs out on the grids the program handles. -/
def brute_force (g : Grid) : Bool × Grid := try_combinations 82 g

/-- The `while True` propagation loop of `solve`, with fuel; a pass with no
steps exits the loop. -/
def solveLoop : Nat → Grid → Grid
  | 0, g => g
  | fuel + 1, g =>
    let steps := find_next_steps g
    if steps = [] then g else solveLoop fuel (perform_steps steps g)

/-- `solve(sudoku)`: propagation to fixpoint (82 passes suffice for a 9×9
grid), then backtracking if the grid is not yet valid.  The Python function
returns `None`; the model returns the final state of the grid. -/
def solve (g : Grid) : Grid :=
  let g1 := solveLoop 82 g
  if is_valid g1 then g1 else (brute_force g1).2

/-- The digit characters `{str(elem) for elem in ref}`. -/
def refChars : List Char := ['1', '2', '3', '4', '5', '6', '7', '8', '9']

/-- Value of one character under `parse_sudoku`: digits 1–9 parse to their
value, everything else to 0. -/
def charVal (c : Char) : Nat := if refChars.contains c then c.toNat - 48 else 0

/-- `parse_sudoku(sudoku)` on an array of rows of characters. -/
def parse_sudoku (rows : List (List Char)) : Grid :=
  rows.map (fun row => row.map charVal)

/-- The loop of `convert_string_to_array`: `idx` is the running enumerate
index and `curr` the current partial row; an incomplete trailing row is
discarded. -/
def csa_go : List Char → Nat → List Char → List (List Char)
  | [], _, _ => []
  | c :: rest, idx, curr =>
    if idx % 9 = 8 then (curr ++ [c]) :: csa_go rest (idx + 1) []
    else csa_go rest (idx + 1) (curr ++ [c])

/-- `convert_string_to_array(string)` (strings modelled as char lists). -/
def convert_string_to_array (s : List Char) : List (List Char) :=
  csa_go s 0 []

/-- `Load`: `parse_sudoku(convert_string_to_array(string))`. -/
def load (s : List Char) : Grid := parse_sudoku (convert_string_to_array s)

/-- The text `print(row)` emits for one row: the Python list repr plus a
newline, e.g. `[7, 0, 3]`. -/
def renderRow (row : List Nat) : List Char :=
  ('[' :: (List.intercalate [',', ' '] (row.map (fun n => (Nat.repr n).toList))))
    ++ [']'] ++ ['\n']

/-- `Render`: the full text printed by `print_sudoku(sudoku)` (each row on
its own line, then one blank line). -/
def render (g : Grid) : List Char := (g.map renderRow).flatten ++ ['\n']

/-- `equality(s1, s2)`: cell-by-cell comparison of the 9×9 area. -/
def equality (s1 s2 : Grid) : Bool :=
  (List.range 9).all (fun i => (List.range 9).all (fun j =>
    getCell s1 i j == getCell s2 i j))

/-! ## Specification-side notions -/

/-- `sol` is a valid Sudoku completion of `g`: a 9×9 grid, valid, agreeing
with `g` on every filled cell. -/
def Completes (g sol : Grid) : Prop :=
  Shape9 sol ∧ is_valid sol = true ∧
    ∀ i, i < 9 → ∀ j, j < 9 → getCell g i j ∈ digits → getCell sol i j = getCell g i j

instance : ∀ g sol, Decidable (Completes g sol) := fun g sol => by
  unfold Completes; infer_instance

/-- `g` admits no valid Sudoku completion. -/
def Unsolvable (g : Grid) : Prop := ∀ sol, Completes g sol → False

/-- Number of empty (non-digit) cells of the 9×9 area. -/
def emptyCount (g : Grid) : Nat :=
  (allCells.filter (fun p => !digits.contains (getCell g p.1 p.2))).length

/-! ## Concrete instances used as witnesses -/

/-- A complete valid grid (cyclic pattern). -/
def gValid : Grid :=
  [[1, 2, 3, 4, 5, 6, 7, 8, 9],
   [4, 5, 6, 7, 8, 9, 1, 2, 3],
   [7, 8, 9, 1, 2, 3, 4, 5, 6],
   [2, 3, 4, 5, 6, 7, 8, 9, 1],
   [5, 6, 7, 8, 9, 1, 2, 3, 4],
   [8, 9, 1, 2, 3, 4, 5, 6, 7],
   [3, 4, 5, 6, 7, 8, 9, 1, 2],
   [6, 7, 8, 9, 1, 2, 3, 4, 5],
   [9, 1, 2, 3, 4, 5, 6, 7, 8]]

/-- `gValid` with cell (0,0) emptied and the 1 moved to (0,1): the single
empty cell (0,0) has no possible values, so the search fails at once. -/
def gStuck : Grid :=
  [[0, 1, 3, 4, 5, 6, 7, 8, 9],
   [4, 5, 6, 7, 8, 9, 1, 2, 3],
   [7, 8, 9, 1, 2, 3, 4, 5, 6],
   [2, 3, 4, 5, 6, 7, 8, 9, 1],
   [5, 6, 7, 8, 9, 1, 2, 3, 4],
   [8, 9, 1, 2, 3, 4, 5, 6, 7],
   [3, 4, 5, 6, 7, 8, 9, 1, 2],
   [6, 7, 8, 9, 1, 2, 3, 4, 5],
   [9, 1, 2, 3, 4, 5, 6, 7, 8]]

/-- `gValid` with (0,8) emptied (a forced cell: the propagation pass fills
in the 9) and row 1 damaged: (1,0) emptied and the 4 moved to (1,1), so
(1,0) has no possible values and the grid has no valid completion. -/
def gUnsolv : Grid :=
  [[1, 2, 3, 4, 5, 6, 7, 8, 0],
   [0, 4, 6, 7, 8, 9, 1, 2, 3],
   [7, 8, 9, 1, 2, 3, 4, 5, 6],
   [2, 3, 4, 5, 6, 7, 8, 9, 1],
   [5, 6, 7, 8, 9, 1, 2, 3, 4],
   [8, 9, 1, 2, 3, 4, 5, 6, 7],
   [3, 4, 5, 6, 7, 8, 9, 1, 2],
   [6, 7, 8, 9, 1, 2, 3, 4, 5],
   [9, 1, 2, 3, 4, 5, 6, 7, 8]]

/-- The puzzle string of the source's `__main__` block. -/
def sRef : List Char :=
  ("7...54..1.1.9.6....64....39....3.5...3..2..1." ++
    "..6.9....87....24....5.9.8.4..28...3").toList

/-- The (unique) solution of the reference puzzle. -/
def solRef : Grid :=
  [[7, 9, 8, 3, 5, 4, 6, 2, 1],
   [3, 1, 2, 9, 7, 6, 8, 5, 4],
   [5, 6, 4, 8, 1, 2, 7, 3, 9],
   [2, 4, 7, 6, 3, 1, 5, 9, 8],
   [9, 3, 5, 7, 2, 8, 4, 1, 6],
   [1, 8, 6, 4, 9, 5, 3, 7, 2],
   [8, 7, 9, 1, 6, 3, 2, 4, 5],
   [6, 2, 3, 5, 4, 9, 1, 8, 7],
   [4, 5, 1, 2, 8, 7, 9, 6, 3]]

/-! ## Basic lemmas about cells, shapes and the 81 coordinates -/

theorem digits_nodup : digits.Nodup := by decide

theorem mem_digits {d : Nat} : d ∈ digits ↔ 1 ≤ d ∧ d ≤ 9 := by
  constructor
  · intro h; fin_cases h <;> omega
  · rintro ⟨h1, h2⟩; interval_cases d <;> decide

theorem getD_set_eq_of_lt {α : Type _} (l : List α) {i : Nat} (a d : α)
    (h : i < l.length) : (l.set i a).getD i d = a := by
  rw [List.getD_eq_getElem _ _ (by simpa using h)]
  exact List.getElem_set_self _

theorem getD_set_ne_idx {α : Type _} (l : List α) {i k : Nat} (a d : α)
    (h : i ≠ k) : (l.set i a).getD k d = l.getD k d := by
  by_cases hk : k < l.length
  · rw [List.getD_eq_getElem _ _ (by simpa using hk),
      List.getElem_set_ne h, List.getD_eq_getElem _ _ hk]
  · rw [List.getD_eq_default _ _ (by simpa using Nat.le_of_not_lt hk),
      List.getD_eq_default _ _ (Nat.le_of_not_lt hk)]

theorem mem_allCells {p : Nat × Nat} : p ∈ allCells ↔ p.1 < 9 ∧ p.2 < 9 := by
  cases p with
  | mk i j =>
    simp only [allCells, List.mem_flatMap, List.mem_map, List.mem_range]
    constructor
    · rintro ⟨a, ha, b, hb, h⟩
      cases h; exact ⟨ha, hb⟩
    · rintro ⟨hi, hj⟩
      exact ⟨i, hi, j, hj, rfl⟩

theorem allCells_nodup : allCells.Nodup := by decide

theorem shape9_setCell {g : Grid} (hs : Shape9 g) (i j v : Nat) :
    Shape9 (setCell g i j v) := by
  obtain ⟨hL, hR⟩ := hs
  refine ⟨by simp [setCell, hL], fun k hk => ?_⟩
  by_cases hik : i = k
  · subst hik
    rw [setCell, getD_set_eq_of_lt _ _ _ (by omega), List.length_set]
    exact hR i hk
  · rw [setCell, getD_set_ne_idx _ _ _ hik]
    exact hR k hk

theorem getCell_setCell_eq {g : Grid} (hs : Shape9 g) {i j : Nat} (v : Nat)
    (hi : i < 9) (hj : j < 9) : getCell (setCell g i j v) i j = v := by
  obtain ⟨hL, hR⟩ := hs
  rw [getCell, setCell, getD_set_eq_of_lt _ _ _ (by omega),
    getD_set_eq_of_lt _ _ _ (by rw [hR i hi]; omega)]

theorem getCell_setCell_ne {g : Grid} {i j i' j' : Nat} (v : Nat)
    (hne : i' ≠ i ∨ j' ≠ j) :
    getCell (setCell g i j v) i' j' = getCell g i' j' := by
  by_cases hii : i = i'
  · subst hii
    have hne' : j' ≠ j := hne.resolve_left (fun h => h rfl)
    rw [getCell, setCell]
    by_cases hI : i < g.length
    · rw [getD_set_eq_of_lt _ _ _ hI, getD_set_ne_idx _ _ _ (Ne.symm hne'), getCell]
    · rw [List.set_eq_of_length_le (Nat.le_of_not_lt hI), getCell]
  · rw [getCell, setCell, getD_set_ne_idx _ _ _ hii, getCell]

theorem wf_setCell {g : Grid} (hs : Shape9 g) (hw : WF g) {v : Nat} (hv : v ≤ 9)
    (i j : Nat) : WF (setCell g i j v) := by
  intro i' hi' j' hj'
  by_cases h : i' = i ∧ j' = j
  · obtain ⟨rfl, rfl⟩ := h
    rw [getCell_setCell_eq hs v hi' hj']; exact hv
  · rw [getCell_setCell_ne v (by tauto)]
    exact hw i' hi' j' hj'

theorem setCell_setCell {g : Grid} (hs : Shape9 g) {i j : Nat} (u v : Nat)
    (hi : i < 9) (hj : j < 9) :
    setCell (setCell g i j u) i j v = setCell g i j v := by
  obtain ⟨hL, hR⟩ := hs
  rw [setCell, setCell, setCell, List.set_set,
    getD_set_eq_of_lt _ _ _ (by omega), List.set_set]

theorem grid_ext {g h : Grid} (hg : Shape9 g) (hh : Shape9 h)
    (he : ∀ i, i < 9 → ∀ j, j < 9 → getCell g i j = getCell h i j) : g = h := by
  obtain ⟨hgL, hgR⟩ := hg
  obtain ⟨hhL, hhR⟩ := hh
  apply List.ext_getElem (by omega)
  intro n h1 h2
  have hn : n < 9 := by omega
  have hrg : (g.getD n []).length = 9 := hgR n hn
  have hrh : (h.getD n []).length = 9 := hhR n hn
  rw [List.getD_eq_getElem _ _ h1] at hrg
  rw [List.getD_eq_getElem _ _ h2] at hrh
  apply List.ext_getElem (by omega)
  intro m hm1 hm2
  have hm : m < 9 := by omega
  have hcell := he n hn m hm
  rwa [getCell, getCell, List.getD_eq_getElem _ _ h1, List.getD_eq_getElem _ _ h2,
    List.getD_eq_getElem _ _ hm1, List.getD_eq_getElem _ _ hm2] at hcell

theorem setCell_self {g : Grid} (hs : Shape9 g) {i j v : Nat}
    (hi : i < 9) (_hj : j < 9) (h : getCell g i j = v) : setCell g i j v = g := by
  apply grid_ext (shape9_setCell hs i j v) hs
  intro i' hi' j' hj'
  by_cases hc : i' = i ∧ j' = j
  · obtain ⟨rfl, rfl⟩ := hc
    rw [getCell_setCell_eq hs v hi' hj', h]
  · rw [getCell_setCell_ne v (by tauto)]

/-! ## Rows, columns and fields seen through cell coordinates -/

theorem mem_iff_getD {α : Type _} {l : List α} {n : Nat} (h : l.length = n) (d : α)
    {x : α} : x ∈ l ↔ ∃ k, k < n ∧ l.getD k d = x := by
  rw [List.mem_iff_getElem]
  constructor
  · rintro ⟨k, hk, rfl⟩
    exact ⟨k, h ▸ hk, List.getD_eq_getElem l d hk⟩
  · rintro ⟨k, hk, rfl⟩
    have hk' : k < l.length := h ▸ hk
    exact ⟨k, hk', (List.getD_eq_getElem l d hk').symm⟩

theorem length_get_row {g : Grid} (hs : Shape9 g) {i : Nat} (hi : i < 9) :
    (get_row i g).length = 9 := hs.2 i hi

theorem getD_get_row {α : Type _} (g : List (List α)) (i j : Nat) (d : α) :
    (get_row i g).getD j d = (g.getD i []).getD j d := rfl

theorem mem_get_row {g : Grid} (hs : Shape9 g) {i : Nat} (hi : i < 9) {x : Nat} :
    x ∈ get_row i g ↔ ∃ j, j < 9 ∧ getCell g i j = x :=
  mem_iff_getD (length_get_row hs hi) 0

theorem length_get_column {α : Type _} [Inhabited α] (g : List (List α)) (j : Nat) :
    (get_column j g).length = g.length := List.length_map _ _

theorem getD_get_column {g : Grid} (hL : g.length = 9) {i : Nat} (j : Nat)
    (hi : i < 9) : (get_column j g).getD i 0 = getCell g i j := by
  have hi' : i < g.length := by omega
  rw [get_column, List.getD_eq_getElem _ _ (by simpa using hi'), List.getElem_map,
    getCell, List.getD_eq_getElem _ _ hi']
  rfl

theorem mem_get_column {g : Grid} (hL : g.length = 9) {j : Nat} {x : Nat} :
    x ∈ get_column j g ↔ ∃ i, i < 9 ∧ getCell g i j = x := by
  rw [mem_iff_getD (by rw [length_get_column, hL]) 0]
  constructor
  · rintro ⟨i, hi, h⟩
    exact ⟨i, hi, by rw [← getD_get_column hL j hi]; exact h⟩
  · rintro ⟨i, hi, h⟩
    exact ⟨i, hi, by rw [getD_get_column hL j hi]; exact h⟩

theorem get_fields_expand {α : Type _} (g : List (List α)) :
    get_fields g =
      [((g.drop 0).take 3).map (fun r => (r.drop 0).take 3),
       ((g.drop 0).take 3).map (fun r => (r.drop 3).take 3),
       ((g.drop 0).take 3).map (fun r => (r.drop 6).take 3),
       ((g.drop 3).take 3).map (fun r => (r.drop 0).take 3),
       ((g.drop 3).take 3).map (fun r => (r.drop 3).take 3),
       ((g.drop 3).take 3).map (fun r => (r.drop 6).take 3),
       ((g.drop 6).take 3).map (fun r => (r.drop 0).take 3),
       ((g.drop 6).take 3).map (fun r => (r.drop 3).take 3),
       ((g.drop 6).take 3).map (fun r => (r.drop 6).take 3)] := rfl

theorem take3_drop {α : Type _} (l : List α) (k : Nat) (h : k + 3 ≤ l.length)
    (d : α) : (l.drop k).take 3 = [l.getD k d, l.getD (k + 1) d, l.getD (k + 2) d] := by
  apply List.ext_getElem
  · simp only [List.length_take, List.length_drop, List.length_cons, List.length_nil]
    omega
  intro n h1 h2
  have hn : n < 3 := by
    simp only [List.length_take, List.length_drop] at h1; omega
  rw [List.getElem_take, List.getElem_drop]
  interval_cases n
  · rw [List.getD_eq_getElem _ _ (show k < l.length by omega)]; simp
  · rw [List.getD_eq_getElem _ _ (show k + 1 < l.length by omega)]; simp
  · rw [List.getD_eq_getElem _ _ (show k + 2 < l.length by omega)]; simp

theorem get_field_eq {α : Type _} (p : List (List α)) (hL : p.length = 9)
    (hR : ∀ k, k < 9 → (p.getD k []).length = 9) {i j : Nat}
    (hi : i < 9) (hj : j < 9) (d : α) :
    get_field i j p =
      [(p.getD (i / 3 * 3) []).getD (j / 3 * 3) d,
       (p.getD (i / 3 * 3) []).getD (j / 3 * 3 + 1) d,
       (p.getD (i / 3 * 3) []).getD (j / 3 * 3 + 2) d,
       (p.getD (i / 3 * 3 + 1) []).getD (j / 3 * 3) d,
       (p.getD (i / 3 * 3 + 1) []).getD (j / 3 * 3 + 1) d,
       (p.getD (i / 3 * 3 + 1) []).getD (j / 3 * 3 + 2) d,
       (p.getD (i / 3 * 3 + 2) []).getD (j / 3 * 3) d,
       (p.getD (i / 3 * 3 + 2) []).getD (j / 3 * 3 + 1) d,
       (p.getD (i / 3 * 3 + 2) []).getD (j / 3 * 3 + 2) d] := by
  rw [get_field]
  have hsel : (get_fields p).getD (i / 3 * 3 + j / 3) [] =
      ((p.drop (i / 3 * 3)).take 3).map (fun r => (r.drop (j / 3 * 3)).take 3) := by
    rw [get_fields_expand]
    have ha : i / 3 = 0 ∨ i / 3 = 1 ∨ i / 3 = 2 := by omega
    have hb : j / 3 = 0 ∨ j / 3 = 1 ∨ j / 3 = 2 := by omega
    rcases ha with h | h | h <;> rcases hb with h' | h' | h' <;> rw [h, h'] <;> rfl
  rw [hsel, take3_drop p (i / 3 * 3) (by omega) [], List.map_cons, List.map_cons,
    List.map_cons, List.map_nil,
    take3_drop _ (j / 3 * 3) (by rw [hR (i / 3 * 3) (by omega)]; omega) d,
    take3_drop _ (j / 3 * 3) (by rw [hR (i / 3 * 3 + 1) (by omega)]; omega) d,
    take3_drop _ (j / 3 * 3) (by rw [hR (i / 3 * 3 + 2) (by omega)]; omega) d]
  rfl

theorem length_get_field {α : Type _} (p : List (List α)) (hL : p.length = 9)
    (hR : ∀ k, k < 9 → (p.getD k []).length = 9) {i j : Nat}
    (hi : i < 9) (hj : j < 9) (d : α) : (get_field i j p).length = 9 := by
  rw [get_field_eq p hL hR hi hj d]; rfl

theorem mem_get_field {g : Grid} (hs : Shape9 g) {i j : Nat}
    (hi : i < 9) (hj : j < 9) {x : Nat} :
    x ∈ get_field i j g ↔
      ∃ a, a < 3 ∧ ∃ b, b < 3 ∧ getCell g (i / 3 * 3 + a) (j / 3 * 3 + b) = x := by
  rw [get_field_eq g hs.1 hs.2 hi hj 0]
  constructor
  · intro hx
    simp only [List.mem_cons, List.not_mem_nil, or_false] at hx
    rcases hx with h | h | h | h | h | h | h | h | h
    · exact ⟨0, by omega, 0, by omega, by rw [getCell]; (try simp only [Nat.add_zero]); exact h.symm⟩
    · exact ⟨0, by omega, 1, by omega, by rw [getCell]; (try simp only [Nat.add_zero]); exact h.symm⟩
    · exact ⟨0, by omega, 2, by omega, by rw [getCell]; (try simp only [Nat.add_zero]); exact h.symm⟩
    · exact ⟨1, by omega, 0, by omega, by rw [getCell]; (try simp only [Nat.add_zero]); exact h.symm⟩
    · exact ⟨1, by omega, 1, by omega, by rw [getCell]; (try simp only [Nat.add_zero]); exact h.symm⟩
    · exact ⟨1, by omega, 2, by omega, by rw [getCell]; (try simp only [Nat.add_zero]); exact h.symm⟩
    · exact ⟨2, by omega, 0, by omega, by rw [getCell]; (try simp only [Nat.add_zero]); exact h.symm⟩
    · exact ⟨2, by omega, 1, by omega, by rw [getCell]; (try simp only [Nat.add_zero]); exact h.symm⟩
    · exact ⟨2, by omega, 2, by omega, by rw [getCell]; (try simp only [Nat.add_zero]); exact h.symm⟩
  · rintro ⟨a, ha, b, hb, hx⟩
    rw [getCell] at hx
    simp only [List.mem_cons, List.not_mem_nil, or_false]
    interval_cases a <;> interval_cases b <;>
      (try simp only [Nat.add_zero] at hx) <;> tauto

/-- The cell (i,j) sits at offset ((i%3)*3 + (j%3)) inside its own field. -/
theorem box_index_eq {i j a b : Nat} (ha : a < 3) (hb : b < 3) :
    a * 3 + b = i % 3 * 3 + j % 3 ↔ i / 3 * 3 + a = i ∧ j / 3 * 3 + b = j := by
  omega

/-! ## The candidate table -/

theorem getPoss_eq {g : Grid} {i j : Nat} (hi : i < 9) (hj : j < 9) :
    getPoss (get_possibilities g) i j =
      if digits.contains (getCell g i j) then [] else get_possible_values i j g := by
  have hrow : (get_possibilities g).getD i [] =
      (List.range 9).map (fun j =>
        if digits.contains (getCell g i j) then [] else get_possible_values i j g) := by
    rw [get_possibilities, List.getD_eq_getElem _ _ (by simpa using hi),
      List.getElem_map, List.getElem_range]
  rw [getPoss, hrow, List.getD_eq_getElem _ _ (by simpa using hj),
    List.getElem_map, List.getElem_range]

theorem poss_shape (g : Grid) :
    (get_possibilities g).length = 9 ∧
      ∀ i, i < 9 → ((get_possibilities g).getD i []).length = 9 := by
  constructor
  · simp [get_possibilities]
  · intro i hi
    rw [get_possibilities, List.getD_eq_getElem _ _ (by simpa using hi),
      List.getElem_map]
    simp

theorem getPoss_empty {g : Grid} {i j : Nat} (hi : i < 9) (hj : j < 9)
    (h : getCell g i j ∉ digits) :
    getPoss (get_possibilities g) i j = get_possible_values i j g := by
  rw [getPoss_eq hi hj, if_neg (by simpa using h)]

theorem getPoss_filled {g : Grid} {i j : Nat} (hi : i < 9) (hj : j < 9)
    (h : getCell g i j ∈ digits) : getPoss (get_possibilities g) i j = [] := by
  rw [getPoss_eq hi hj, if_pos (by simpa using h)]

theorem mem_gpv {g : Grid} {i j d : Nat} :
    d ∈ get_possible_values i j g ↔
      d ∈ digits ∧ d ∉ get_field i j g ∧ d ∉ get_row i g ∧ d ∉ get_column j g := by
  rw [get_possible_values, List.mem_filter]
  simp only [Bool.and_eq_true, Bool.not_eq_true', ← Bool.not_eq_true]
  constructor
  · rintro ⟨h1, ⟨h2, h3⟩, h4⟩
    exact ⟨h1, by simpa using h2, by simpa using h3, by simpa using h4⟩
  · rintro ⟨h1, h2, h3, h4⟩
    exact ⟨h1, ⟨by simpa using h2, by simpa using h3⟩, by simpa using h4⟩

theorem gpv_subset_digits {g : Grid} {i j : Nat} :
    ∀ d ∈ get_possible_values i j g, d ∈ digits := by
  intro d hd
  exact (mem_gpv.mp hd).1

theorem gpv_pairwise (g : Grid) (i j : Nat) :
    (get_possible_values i j g).Pairwise (· < ·) :=
  List.Pairwise.filter _ (by decide : digits.Pairwise (· < ·))

theorem other_contains_iff {l : List (List Nat)} {idx item : Nat} :
    other_contains l idx item = true ↔
      ∃ k, k < l.length ∧ k ≠ idx ∧ item ∈ l.getD k [] := by
  rw [other_contains, List.any_eq_true]
  constructor
  · rintro ⟨⟨k, s⟩, hmem, hp⟩
    obtain ⟨hk, hs⟩ := List.mem_enum hmem
    simp only [bne_iff_ne, ne_eq, Bool.and_eq_true, decide_eq_true_eq] at hp
    refine ⟨k, hk, by simpa using hp.1, ?_⟩
    rw [List.getD_eq_getElem _ _ hk, ← hs]
    simpa using hp.2
  · rintro ⟨k, hk, hne, hmem⟩
    refine ⟨(k, l[k]), ?_, ?_⟩
    · rw [List.mem_iff_getElem]
      exact ⟨k, by simpa [List.enum_length] using hk, by simp [List.getElem_enum]⟩
    · simp only [bne_iff_ne, ne_eq, Bool.and_eq_true, decide_eq_true_eq]
      refine ⟨by simpa using hne, ?_⟩
      rw [List.getD_eq_getElem _ _ hk] at hmem
      simpa using hmem

/-! ## The validity test -/

theorem set_eq_ref_iff {l : List Nat} :
    set_eq_ref l = true ↔ (∀ d ∈ digits, d ∈ l) ∧ ∀ x ∈ l, x ∈ digits := by
  rw [set_eq_ref, Bool.and_eq_true, List.all_eq_true, List.all_eq_true]
  constructor
  · rintro ⟨h1, h2⟩
    exact ⟨fun d hd => by simpa using h1 d hd, fun x hx => by simpa using h2 x hx⟩
  · rintro ⟨h1, h2⟩
    exact ⟨fun d hd => by simpa using h1 d hd, fun x hx => by simpa using h2 x hx⟩

theorem set_eq_ref_perm {l : List Nat} (h : set_eq_ref l = true)
    (hl : l.length = 9) : l.Perm digits := by
  rw [set_eq_ref_iff] at h
  have hsub : digits.Subperm l := digits_nodup.subperm (fun d hd => h.1 d hd)
  exact (hsub.perm_of_length_le (by rw [hl]; rfl)).symm

theorem perm_of_counts {l : List Nat} (hl : l.length = 9)
    (h : ∀ d ∈ digits, l.count d = 1) : l.Perm digits := by
  have hle : (digits : Multiset Nat) ≤ (l : Multiset Nat) := by
    rw [Multiset.le_iff_count]
    intro a
    by_cases ha : a ∈ digits
    · rw [Multiset.coe_count, Multiset.coe_count, h a ha,
        List.count_eq_one_of_mem digits_nodup ha]
    · rw [Multiset.coe_count, List.count_eq_zero_of_not_mem ha]
      exact Nat.zero_le _
  have heq := Multiset.eq_of_le_of_card_le hle (by simpa using Nat.le_of_eq hl)
  exact (Multiset.coe_eq_coe.mp heq).symm

theorem perm_digits_facts {l : List Nat} (h : l.Perm digits) :
    l.Nodup ∧ (∀ x, x ∈ l ↔ x ∈ digits) ∧ ∀ d ∈ digits, l.count d = 1 := by
  refine ⟨h.nodup_iff.mpr digits_nodup, fun x => h.mem_iff, fun d hd => ?_⟩
  rw [List.perm_iff_count.mp h d, List.count_eq_one_of_mem digits_nodup hd]

theorem is_valid_parts {g : Grid} (h : is_valid g = true) :
    (∀ r ∈ g, set_eq_ref r = true) ∧
      (∀ c ∈ zip_star g, set_eq_ref c = true) ∧
      ∀ f ∈ get_fields g, set_eq_ref f.flatten = true := by
  rw [is_valid, Bool.and_eq_true, Bool.and_eq_true, List.all_eq_true,
    List.all_eq_true, List.all_eq_true] at h
  exact ⟨h.1.1, h.1.2, h.2⟩

theorem is_valid_row {g : Grid} (hs : Shape9 g) (h : is_valid g = true)
    {i : Nat} (hi : i < 9) : set_eq_ref (get_row i g) = true := by
  refine (is_valid_parts h).1 _ ?_
  rw [get_row, List.getD_eq_getElem _ _ (by rw [hs.1]; omega)]
  exact List.getElem_mem _

theorem is_valid_col {g : Grid} (h : is_valid g = true)
    {j : Nat} (hj : j < 9) : set_eq_ref (get_column j g) = true := by
  refine (is_valid_parts h).2.1 _ ?_
  rw [zip_star]
  exact List.mem_map.mpr ⟨j, by simpa using hj, rfl⟩

theorem length_get_fields {α : Type _} (p : List (List α)) :
    (get_fields p).length = 9 := by
  rw [get_fields_expand]; rfl

theorem is_valid_field {g : Grid} (h : is_valid g = true)
    {i j : Nat} (hi : i < 9) (hj : j < 9) :
    set_eq_ref (get_field i j g) = true := by
  refine (is_valid_parts h).2.2 _ ?_
  rw [List.getD_eq_getElem _ _ (by rw [length_get_fields]; omega)]
  exact List.getElem_mem _

theorem is_valid_cell_mem {g : Grid} (hs : Shape9 g) (h : is_valid g = true)
    {i j : Nat} (hi : i < 9) (hj : j < 9) : getCell g i j ∈ digits := by
  have hrow := is_valid_row hs h hi
  rw [set_eq_ref_iff] at hrow
  refine hrow.2 _ ?_
  rw [mem_get_row hs hi]
  exact ⟨j, hj, rfl⟩

theorem valid_row_perm {g : Grid} (hs : Shape9 g) (h : is_valid g = true)
    {i : Nat} (hi : i < 9) : (get_row i g).Perm digits :=
  set_eq_ref_perm (is_valid_row hs h hi) (length_get_row hs hi)

theorem valid_col_perm {g : Grid} (hs : Shape9 g) (h : is_valid g = true)
    {j : Nat} (hj : j < 9) : (get_column j g).Perm digits :=
  set_eq_ref_perm (is_valid_col h hj) (by rw [length_get_column, hs.1])

theorem valid_field_perm {g : Grid} (hs : Shape9 g) (h : is_valid g = true)
    {i j : Nat} (hi : i < 9) (hj : j < 9) : (get_field i j g).Perm digits :=
  set_eq_ref_perm (is_valid_field h hi hj) (length_get_field g hs.1 hs.2 hi hj 0)

/-! ## Structure of the propagation pass -/

theorem cell_steps_coords {i j : Nat} {p : List (List (List Nat))}
    {s : Nat × Nat × Nat} (h : s ∈ cell_steps i j p) :
    s.1 = i ∧ s.2.1 = j ∧ s = (i, j, s.2.2) := by
  rw [cell_steps] at h
  by_cases hc : (getPoss p i j).length = 1
  · rw [if_pos hc] at h
    simp only [List.mem_cons, List.not_mem_nil, or_false] at h
    subst h; exact ⟨rfl, rfl, rfl⟩
  · rw [if_neg hc] at h
    rcases hfind : (getPoss p i j).find? (fun d => !can_be_placed_elsewhere i j d p) with _ | d
    · rw [hfind] at h; simp at h
    · rw [hfind] at h
      simp only [List.mem_cons, List.not_mem_nil, or_false] at h
      subst h; exact ⟨rfl, rfl, rfl⟩

theorem mem_find_next_steps {g : Grid} {s : Nat × Nat × Nat} :
    s ∈ find_next_steps g ↔
      s.1 < 9 ∧ s.2.1 < 9 ∧ s ∈ cell_steps s.1 s.2.1 (get_possibilities g) := by
  rw [find_next_steps]
  simp only [List.mem_flatMap, List.mem_range]
  constructor
  · rintro ⟨i, hi, j, hj, hmem⟩
    obtain ⟨h1, h2, _⟩ := cell_steps_coords hmem
    subst h1; subst h2
    exact ⟨hi, hj, hmem⟩
  · rintro ⟨hi, hj, hmem⟩
    exact ⟨s.1, hi, s.2.1, hj, hmem⟩

theorem find_next_steps_eq_nil {g : Grid}
    (hcells : ∀ i, i < 9 → ∀ j, j < 9 → getCell g i j ∈ digits) :
    find_next_steps g = [] := by
  rw [find_next_steps, List.flatMap_eq_nil_iff]
  intro li hli
  rw [List.mem_range] at hli
  rw [List.flatMap_eq_nil_iff]
  intro lj hlj
  rw [List.mem_range] at hlj
  rw [cell_steps, getPoss_filled hli hlj (hcells _ hli _ hlj)]
  rfl

end Sudoku

namespace Sudoku

theorem set_eq_ref_of_perm {l : List Nat} (h : l.Perm digits) :
    set_eq_ref l = true := by
  rw [set_eq_ref_iff]
  exact ⟨fun d hd => h.mem_iff.mpr hd, fun x hx => h.mem_iff.mp hx⟩

theorem mem_get_fields_decomp {g : Grid} {f : List (List Nat)}
    (h : f ∈ get_fields g) :
    ∃ i, i < 9 ∧ ∃ j, j < 9 ∧ f.flatten = get_field i j g := by
  rw [List.mem_iff_getElem] at h
  obtain ⟨k, hk, hf⟩ := h
  rw [length_get_fields] at hk
  refine ⟨3 * (k / 3), by omega, 3 * (k % 3), by omega, ?_⟩
  rw [get_field]
  have hidx : 3 * (k / 3) / 3 * 3 + 3 * (k % 3) / 3 = k := by omega
  rw [hidx, List.getD_eq_getElem _ _ (by rw [length_get_fields]; omega), hf]

/-- C3: `is_valid(grid)` is true iff every row, every column and every one
of the nine 3×3 boxes contains each digit 1–9 exactly once; a grid with a
0 cell is never valid. -/
theorem claim_C3 {g : Grid} (hs : Shape9 g) :
    (is_valid g = true ↔
      (∀ i, i < 9 → ∀ d ∈ digits, (get_row i g).count d = 1) ∧
        (∀ j, j < 9 → ∀ d ∈ digits, (get_column j g).count d = 1) ∧
          ∀ i, i < 9 → ∀ j, j < 9 → ∀ d ∈ digits, (get_field i j g).count d = 1) ∧
      ∀ i, i < 9 → ∀ j, j < 9 → getCell g i j = 0 → is_valid g = false := by
  constructor
  · constructor
    · intro h
      exact ⟨fun i hi => (perm_digits_facts (valid_row_perm hs h hi)).2.2,
        fun j hj => (perm_digits_facts (valid_col_perm hs h hj)).2.2,
        fun i hi j hj => (perm_digits_facts (valid_field_perm hs h hi hj)).2.2⟩
    · rintro ⟨hr, hc, hf⟩
      rw [is_valid, Bool.and_eq_true, Bool.and_eq_true, List.all_eq_true,
        List.all_eq_true, List.all_eq_true]
      refine ⟨⟨?_, ?_⟩, ?_⟩
      · intro r hrm
        rw [List.mem_iff_getElem] at hrm
        obtain ⟨n, hn, hr'⟩ := hrm
        have hn9 : n < 9 := by rw [hs.1] at hn; omega
        have hrow : r = get_row n g := by
          rw [get_row, List.getD_eq_getElem _ _ hn, hr']
        rw [hrow]
        exact set_eq_ref_of_perm
          (perm_of_counts (length_get_row hs hn9) (hr n hn9))
      · intro c hcm
        rw [zip_star, List.mem_map] at hcm
        obtain ⟨j, hj, hc'⟩ := hcm
        rw [List.mem_range] at hj
        rw [← hc']
        exact set_eq_ref_of_perm
          (perm_of_counts (by rw [length_get_column, hs.1]) (hc j hj))
      · intro f hfm
        obtain ⟨i, hi, j, hj, hflat⟩ := mem_get_fields_decomp hfm
        rw [hflat]
        exact set_eq_ref_of_perm
          (perm_of_counts (length_get_field g hs.1 hs.2 hi hj 0) (hf i hi j hj))
  · intro i hi j hj h0
    cases hv : is_valid g with
    | false => rfl
    | true =>
      have hmem := is_valid_cell_mem hs hv hi hj
      rw [h0] at hmem
      exact absurd hmem (by decide)

/-- Witness for C3 at the concrete valid grid `gValid`. -/
theorem claim_C3_witness :
    (is_valid gValid = true ↔
      (∀ i, i < 9 → ∀ d ∈ digits, (get_row i gValid).count d = 1) ∧
        (∀ j, j < 9 → ∀ d ∈ digits, (get_column j gValid).count d = 1) ∧
          ∀ i, i < 9 → ∀ j, j < 9 → ∀ d ∈ digits, (get_field i j gValid).count d = 1) ∧
      ∀ i, i < 9 → ∀ j, j < 9 → getCell gValid i j = 0 → is_valid gValid = false :=
  claim_C3 (by decide)

/-- C4: for an empty cell the legal digits are {1..9} minus the digits of
its row, column and box (and they are exactly the candidate-table entry);
for a filled cell the candidate-table entry is the empty set. -/
theorem claim_C4 {g : Grid} (hs : Shape9 g) {i j : Nat} (hi : i < 9) (hj : j < 9) :
    (getCell g i j = 0 →
      getPoss (get_possibilities g) i j = get_possible_values i j g ∧
        ∀ d, d ∈ get_possible_values i j g ↔
          d ∈ digits ∧
            (¬ ∃ j', j' < 9 ∧ getCell g i j' = d) ∧
              (¬ ∃ i', i' < 9 ∧ getCell g i' j = d) ∧
                ¬ ∃ a, a < 3 ∧ ∃ b, b < 3 ∧
                  getCell g (i / 3 * 3 + a) (j / 3 * 3 + b) = d) ∧
      (getCell g i j ∈ digits → getPoss (get_possibilities g) i j = []) := by
  constructor
  · intro h0
    have hnd : getCell g i j ∉ digits := by rw [h0]; decide
    refine ⟨getPoss_empty hi hj hnd, fun d => ?_⟩
    rw [mem_gpv, mem_get_field hs hi hj, mem_get_row hs hi, mem_get_column hs.1]
    constructor
    · rintro ⟨h1, h2, h3, h4⟩
      exact ⟨h1, h3, h4, h2⟩
    · rintro ⟨h1, h2, h3, h4⟩
      exact ⟨h1, h4, h2, h3⟩
  · exact getPoss_filled hi hj

/-- Witness for C4 at the reference puzzle, cell (0,1) (an empty cell). -/
theorem claim_C4_witness :
    (getCell (load sRef) 0 1 = 0 →
      getPoss (get_possibilities (load sRef)) 0 1 = get_possible_values 0 1 (load sRef) ∧
        ∀ d, d ∈ get_possible_values 0 1 (load sRef) ↔
          d ∈ digits ∧
            (¬ ∃ j', j' < 9 ∧ getCell (load sRef) 0 j' = d) ∧
              (¬ ∃ i', i' < 9 ∧ getCell (load sRef) i' 1 = d) ∧
                ¬ ∃ a, a < 3 ∧ ∃ b, b < 3 ∧
                  getCell (load sRef) (0 / 3 * 3 + a) (1 / 3 * 3 + b) = d) ∧
      (getCell (load sRef) 0 1 ∈ digits →
        getPoss (get_possibilities (load sRef)) 0 1 = []) :=
  claim_C4 (by decide) (by decide) (by decide)

theorem cell_steps_map_coords {i j : Nat} {p : List (List (List Nat))}
    {q : Nat × Nat} (h : q ∈ (cell_steps i j p).map (fun s => (s.1, s.2.1))) :
    q = (i, j) := by
  rw [List.mem_map] at h
  obtain ⟨s, hs, hq⟩ := h
  obtain ⟨h1, h2, _⟩ := cell_steps_coords hs
  rw [← hq, h1, h2]

/-- C7: one propagation pass emits at most one step per cell: the list of
(row, col) coordinates of the batch has no duplicates. -/
theorem claim_C7 (g : Grid) :
    ((find_next_steps g).map (fun s => (s.1, s.2.1))).Nodup := by
  rw [find_next_steps, List.map_flatMap, List.nodup_flatMap]
  constructor
  · intro i _
    rw [List.map_flatMap, List.nodup_flatMap]
    constructor
    · intro j _
      cases hc : (cell_steps i j (get_possibilities g)).map (fun s => (s.1, s.2.1)) with
      | nil => exact List.nodup_nil
      | cons q t =>
        have hq : q = (i, j) := cell_steps_map_coords (by rw [hc]; exact List.mem_cons_self _ _)
        have ht : t = [] := by
          cases t with
          | nil => rfl
          | cons q' t' =>
            exfalso
            rw [cell_steps] at hc
            by_cases h1 : (getPoss (get_possibilities g) i j).length = 1
            · rw [if_pos h1] at hc
              simp at hc
            · rw [if_neg h1] at hc
              rcases hf : (getPoss (get_possibilities g) i j).find?
                  (fun d => !can_be_placed_elsewhere i j d (get_possibilities g)) with _ | d
              · rw [hf] at hc; simp at hc
              · rw [hf] at hc; simp at hc
        rw [hq, ht]
        exact List.nodup_singleton _
    · refine List.Pairwise.imp ?_ (List.pairwise_lt_range 9)
      intro j j' hjj
      rw [Function.onFun, List.disjoint_left]
      intro q hq hq'
      have h1 := cell_steps_map_coords hq
      have h2 := cell_steps_map_coords hq'
      rw [h1] at h2
      exact Nat.ne_of_lt hjj (by simpa using congrArg Prod.snd h2)
  · refine List.Pairwise.imp ?_ (List.pairwise_lt_range 9)
    intro i i' hii
    rw [Function.onFun, List.disjoint_left]
    intro q hq hq'
    rw [List.map_flatMap, List.mem_flatMap] at hq hq'
    obtain ⟨j, _, hq⟩ := hq
    obtain ⟨j', _, hq'⟩ := hq'
    have h1 := cell_steps_map_coords hq
    have h2 := cell_steps_map_coords hq'
    rw [h1] at h2
    exact Nat.ne_of_lt hii (by simpa using congrArg Prod.fst h2)

theorem solveLoop_succ (n : Nat) (g : Grid) :
    solveLoop (n + 1) g =
      if find_next_steps g = [] then g
      else solveLoop n (perform_steps (find_next_steps g) g) := rfl

theorem solveLoop_fix {g : Grid} (h : find_next_steps g = []) :
    ∀ fuel, solveLoop fuel g = g := by
  intro fuel
  cases fuel with
  | zero => rfl
  | succ n => rw [solveLoop_succ, if_pos h]

theorem solve_eq (g : Grid) :
    solve g =
      if is_valid (solveLoop 82 g) then solveLoop 82 g
      else (brute_force (solveLoop 82 g)).2 := rfl

/-- C8: `solve` on an already valid (hence fully filled) grid changes
nothing, `is_valid` holds before and after, and a second call is a no-op. -/
theorem claim_C8 {g : Grid} (hs : Shape9 g) (hv : is_valid g = true) :
    solve g = g ∧ is_valid (solve g) = true ∧ solve (solve g) = solve g := by
  have hnil : find_next_steps g = [] :=
    find_next_steps_eq_nil (fun i hi j hj => is_valid_cell_mem hs hv hi hj)
  have hid : solve g = g := by
    rw [solve_eq, solveLoop_fix hnil, if_pos hv]
  exact ⟨hid, by rw [hid]; exact hv, by rw [hid, hid]⟩

/-- Witness for C8 at the concrete valid grid `gValid`. -/
theorem claim_C8_witness :
    solve gValid = gValid ∧ is_valid (solve gValid) = true ∧
      solve (solve gValid) = solve gValid :=
  claim_C8 (by decide) (by decide)

theorem getD_get_column_poss {p : List (List (List Nat))} (hL : p.length = 9)
    {k : Nat} (j : Nat) (hk : k < 9) :
    (get_column j p).getD k [] = getPoss p k j := by
  have hk' : k < p.length := by omega
  rw [get_column, List.getD_eq_getElem _ _ (by simpa using hk'), List.getElem_map,
    getPoss, List.getD_eq_getElem _ _ hk']
  rfl

theorem getD_get_field {α : Type _} (p : List (List α)) (hL : p.length = 9)
    (hR : ∀ k, k < 9 → (p.getD k []).length = 9) {i j : Nat}
    (hi : i < 9) (hj : j < 9) (d : α) {k : Nat} (hk : k < 9) :
    (get_field i j p).getD k d = (p.getD (i / 3 * 3 + k / 3) []).getD (j / 3 * 3 + k % 3) d := by
  rw [get_field_eq p hL hR hi hj d]
  interval_cases k <;> rfl

theorem find?_sorted_iff {l : List Nat} (hl : l.Pairwise (· < ·)) (p : Nat → Bool)
    {e : Nat} : l.find? p = some e ↔
      e ∈ l ∧ p e = true ∧ ∀ e' ∈ l, e' < e → p e' = false := by
  induction l with
  | nil => simp
  | cons a t ih =>
    have hat : ∀ x ∈ t, a < x := fun x hx => (List.pairwise_cons.mp hl).1 x hx
    by_cases hp : p a = true
    · rw [List.find?_cons_of_pos _ hp]
      constructor
      · intro h
        have hea : e = a := by injection h with h'; exact h'.symm
        subst hea
        refine ⟨List.mem_cons_self _ _, hp, fun e' he' hlt => ?_⟩
        rcases List.mem_cons.mp he' with rfl | he't
        · omega
        · exact absurd (hat e' he't) (by omega)
      · rintro ⟨he, hpe, hmin⟩
        rcases List.mem_cons.mp he with rfl | het
        · rfl
        · exact absurd hp (by rw [hmin a (List.mem_cons_self _ _) (hat e het)]; simp)
    · rw [List.find?_cons_of_neg _ (by simpa using hp)]
      rw [ih (List.Pairwise.sublist (List.sublist_cons_self a t) hl)]
      constructor
      · rintro ⟨he, hpe, hmin⟩
        refine ⟨List.mem_cons_of_mem _ he, hpe, fun e' he' hlt => ?_⟩
        rcases List.mem_cons.mp he' with rfl | he't
        · simpa using hp
        · exact hmin e' he't hlt
      · rintro ⟨he, hpe, hmin⟩
        rcases List.mem_cons.mp he with rfl | het
        · exact absurd hpe hp
        · exact ⟨het, hpe, fun e' he' hlt => hmin e' (List.mem_cons_of_mem _ he') hlt⟩

/-- C2: `can_be_placed_elsewhere` is the conjunction of the three
"another cell of the region could take the digit" tests, and on a cell
with more than one candidate, `find_next_steps` emits exactly the first
candidate (in ascending iteration order) failing that conjunction. -/
theorem claim_C2 {g : Grid} {i j d : Nat} (hi : i < 9) (hj : j < 9) :
    (can_be_placed_elsewhere i j d (get_possibilities g) = true ↔
      (∃ i', i' < 9 ∧ i' ≠ i ∧ d ∈ getPoss (get_possibilities g) i' j) ∧
        (∃ j', j' < 9 ∧ j' ≠ j ∧ d ∈ getPoss (get_possibilities g) i j') ∧
          ∃ a, a < 3 ∧ ∃ b, b < 3 ∧ (i / 3 * 3 + a, j / 3 * 3 + b) ≠ (i, j) ∧
            d ∈ getPoss (get_possibilities g) (i / 3 * 3 + a) (j / 3 * 3 + b)) ∧
      ((getPoss (get_possibilities g) i j).length > 1 →
        ∀ e, (i, j, e) ∈ find_next_steps g ↔
          e ∈ getPoss (get_possibilities g) i j ∧
            can_be_placed_elsewhere i j e (get_possibilities g) = false ∧
              ∀ e', e' ∈ getPoss (get_possibilities g) i j → e' < e →
                can_be_placed_elsewhere i j e' (get_possibilities g) = true) := by
  have hshape := poss_shape g
  constructor
  · rw [can_be_placed_elsewhere, Bool.and_eq_true, Bool.and_eq_true]
    constructor
    · rintro ⟨⟨hcol, hrow⟩, hfield⟩
      rw [other_contains_iff] at hcol hrow hfield
      obtain ⟨k1, hk1, hk1i, hd1⟩ := hcol
      obtain ⟨k2, hk2, hk2j, hd2⟩ := hrow
      obtain ⟨k3, hk3, hk3x, hd3⟩ := hfield
      rw [length_get_column, hshape.1] at hk1
      rw [get_row, hshape.2 i hi] at hk2
      rw [length_get_field _ hshape.1 hshape.2 hi hj []] at hk3
      refine ⟨⟨k1, hk1, hk1i, by rwa [getD_get_column_poss hshape.1 j hk1] at hd1⟩,
        ⟨k2, hk2, hk2j, hd2⟩,
        ⟨k3 / 3, by omega, k3 % 3, by omega, ?_, ?_⟩⟩
      · intro hpair
        apply hk3x
        have h1 : i / 3 * 3 + k3 / 3 = i := congrArg Prod.fst hpair
        have h2 : j / 3 * 3 + k3 % 3 = j := congrArg Prod.snd hpair
        omega
      · rwa [getD_get_field _ hshape.1 hshape.2 hi hj [] hk3] at hd3
    · rintro ⟨⟨i', hi', hii', hd1⟩, ⟨j', hj', hjj', hd2⟩, ⟨a, ha, b, hb, hab, hd3⟩⟩
      refine ⟨⟨?_, ?_⟩, ?_⟩
      · rw [other_contains_iff]
        exact ⟨i', by rw [length_get_column, hshape.1]; omega, hii',
          by rwa [getD_get_column_poss hshape.1 j hi']⟩
      · rw [other_contains_iff]
        exact ⟨j', by rw [get_row, hshape.2 i hi]; omega, hjj', hd2⟩
      · rw [other_contains_iff]
        refine ⟨a * 3 + b, by rw [length_get_field _ hshape.1 hshape.2 hi hj []]; omega, ?_, ?_⟩
        · intro hk
          apply hab
          have h1 : i / 3 * 3 + a = i := by omega
          have h2 : j / 3 * 3 + b = j := by omega
          rw [h1, h2]
        · rw [getD_get_field _ hshape.1 hshape.2 hi hj [] (by omega : a * 3 + b < 9)]
          have h1 : (a * 3 + b) / 3 = a := by omega
          have h2 : (a * 3 + b) % 3 = b := by omega
          rwa [h1, h2]
  · intro hlen e
    have hne1 : ¬(getPoss (get_possibilities g) i j).length = 1 := by omega
    have hpw : (getPoss (get_possibilities g) i j).Pairwise (· < ·) := by
      rw [getPoss_eq hi hj]
      by_cases hc : digits.contains (getCell g i j)
      · rw [if_pos hc]; exact List.Pairwise.nil
      · rw [if_neg hc]; exact gpv_pairwise g i j
    constructor
    · intro hmem
      have hcs := (mem_find_next_steps.mp hmem).2.2
      rw [cell_steps] at hcs
      simp only at hcs
      rw [if_neg hne1] at hcs
      rcases hf : (getPoss (get_possibilities g) i j).find?
          (fun d => !can_be_placed_elsewhere i j d (get_possibilities g)) with _ | d0
      · rw [hf] at hcs; simp at hcs
      · rw [hf] at hcs
        simp only [List.mem_cons, List.not_mem_nil, or_false, Prod.mk.injEq] at hcs
        have he : e = d0 := hcs.2.2
        subst he
        obtain ⟨h1, h2, h3⟩ := (find?_sorted_iff hpw _).mp hf
        refine ⟨h1, by simpa using h2, fun e' he' hlt => ?_⟩
        have := h3 e' he' hlt
        simpa using this
    · rintro ⟨he, hcb, hmin⟩
      refine mem_find_next_steps.mpr ⟨hi, hj, ?_⟩
      rw [cell_steps]
      simp only
      rw [if_neg hne1]
      have hf : (getPoss (get_possibilities g) i j).find?
          (fun d => !can_be_placed_elsewhere i j d (get_possibilities g)) = some e := by
        rw [find?_sorted_iff hpw]
        exact ⟨he, by simpa using hcb, fun e' he' hlt => by simpa using hmin e' he' hlt⟩
      rw [hf]
      exact List.mem_singleton.mpr rfl

/-- Witness for C2 at the reference puzzle, cell (0,1). -/
theorem claim_C2_witness :
    (can_be_placed_elsewhere 0 1 9 (get_possibilities (load sRef)) = true ↔
      (∃ i', i' < 9 ∧ i' ≠ 0 ∧ 9 ∈ getPoss (get_possibilities (load sRef)) i' 1) ∧
        (∃ j', j' < 9 ∧ j' ≠ 1 ∧ 9 ∈ getPoss (get_possibilities (load sRef)) 0 j') ∧
          ∃ a, a < 3 ∧ ∃ b, b < 3 ∧ (0 / 3 * 3 + a, 1 / 3 * 3 + b) ≠ (0, 1) ∧
            9 ∈ getPoss (get_possibilities (load sRef)) (0 / 3 * 3 + a) (1 / 3 * 3 + b)) ∧
      ((getPoss (get_possibilities (load sRef)) 0 1).length > 1 →
        ∀ e, (0, 1, e) ∈ find_next_steps (load sRef) ↔
          e ∈ getPoss (get_possibilities (load sRef)) 0 1 ∧
            can_be_placed_elsewhere 0 1 e (get_possibilities (load sRef)) = false ∧
              ∀ e', e' ∈ getPoss (get_possibilities (load sRef)) 0 1 → e' < e →
                can_be_placed_elsewhere 0 1 e' (get_possibilities (load sRef)) = true) :=
  claim_C2 (by decide) (by decide)

/-! ## Steps of one pass target empty cells and decrease the empty count -/

theorem step_mem_cur {g : Grid} {i j d : Nat}
    (h : (i, j, d) ∈ find_next_steps g) :
    i < 9 ∧ j < 9 ∧ d ∈ getPoss (get_possibilities g) i j := by
  obtain ⟨hi, hj, hcs⟩ := mem_find_next_steps.mp h
  refine ⟨hi, hj, ?_⟩
  rw [cell_steps] at hcs
  simp only at hcs
  by_cases h1 : (getPoss (get_possibilities g) i j).length = 1
  · rw [if_pos h1] at hcs
    obtain ⟨x, hx⟩ := List.length_eq_one.mp h1
    simp only [List.mem_cons, List.not_mem_nil, or_false, Prod.mk.injEq] at hcs
    rw [hcs.2.2, hx]
    simp
  · rw [if_neg h1] at hcs
    rcases hf : (getPoss (get_possibilities g) i j).find?
        (fun e => !can_be_placed_elsewhere i j e (get_possibilities g)) with _ | d0
    · rw [hf] at hcs; simp at hcs
    · rw [hf] at hcs
      simp only [List.mem_cons, List.not_mem_nil, or_false, Prod.mk.injEq] at hcs
      rw [hcs.2.2]
      exact List.mem_of_find?_eq_some hf

theorem step_sound_basic {g : Grid} (hw : WF g) {i j d : Nat}
    (h : (i, j, d) ∈ find_next_steps g) :
    i < 9 ∧ j < 9 ∧ getCell g i j = 0 ∧ d ∈ digits ∧
      d ∈ get_possible_values i j g := by
  obtain ⟨hi, hj, hd⟩ := step_mem_cur h
  have hne : getPoss (get_possibilities g) i j ≠ [] := by
    intro hnil; rw [hnil] at hd; exact List.not_mem_nil _ hd
  have hnotdig : getCell g i j ∉ digits := by
    intro hdig
    exact hne (getPoss_filled hi hj hdig)
  have h0 : getCell g i j = 0 := by
    have := hw i hi j hj
    rw [mem_digits] at hnotdig
    omega
  rw [getPoss_empty hi hj hnotdig] at hd
  exact ⟨hi, hj, h0, gpv_subset_digits d hd, hd⟩

theorem length_filter_lt {l : List (Nat × Nat)} (hnd : l.Nodup)
    {x : Nat × Nat} (hx : x ∈ l) (p q : Nat × Nat → Bool)
    (hagree : ∀ y ∈ l, y ≠ x → p y = q y) (hpx : p x = true) (hqx : q x = false) :
    (l.filter q).length < (l.filter p).length := by
  induction l with
  | nil => exact absurd hx (List.not_mem_nil _)
  | cons a t ih =>
    obtain ⟨hat, hndt⟩ := List.nodup_cons.mp hnd
    rcases List.mem_cons.mp hx with rfl | hxt
    · rw [List.filter_cons, List.filter_cons, hpx, hqx]
      have heq : t.filter p = t.filter q :=
        List.filter_congr (fun y hy =>
          hagree y (List.mem_cons_of_mem _ hy) (fun hyx => hat (hyx ▸ hy)))
      rw [heq]
      simp
    · have hax : a ≠ x := fun hax => hat (hax ▸ hxt)
      have hpa : p a = q a := hagree a (List.mem_cons_self _ _) hax
      have hih := ih hndt hxt (fun y hy hyx => hagree y (List.mem_cons_of_mem _ hy) hyx)
      rw [List.filter_cons, List.filter_cons, ← hpa]
      cases hc : p a <;> simp [hc] <;> omega

theorem emptyCount_setCell_lt {g : Grid} (hs : Shape9 g) {i j d : Nat}
    (hi : i < 9) (hj : j < 9) (h0 : getCell g i j ∉ digits) (hd : d ∈ digits) :
    emptyCount (setCell g i j d) < emptyCount g := by
  rw [emptyCount, emptyCount]
  refine length_filter_lt allCells_nodup
    (show (i, j) ∈ allCells from mem_allCells.mpr ⟨hi, hj⟩) _ _ ?_ ?_ ?_
  · intro y hy hyx
    have hyne : y.1 ≠ i ∨ y.2 ≠ j := by
      by_contra hc
      push_neg at hc
      exact hyx (Prod.ext hc.1 hc.2)
    rw [getCell_setCell_ne d hyne]
  · simpa using h0
  · rw [getCell_setCell_eq hs d hi hj]
    simpa using hd

theorem emptyCount_setCell_le {g : Grid} (hs : Shape9 g) {i j d : Nat}
    (hi : i < 9) (hj : j < 9) (hd : d ∈ digits) :
    emptyCount (setCell g i j d) ≤ emptyCount g := by
  by_cases h0 : getCell g i j ∈ digits
  · have heq : setCell g i j d = setCell g i j d := rfl
    have : ∀ y ∈ allCells,
        (!digits.contains (getCell (setCell g i j d) y.1 y.2)) = true →
          (!digits.contains (getCell g y.1 y.2)) = true := by
      intro y hy hq
      by_cases hyx : y = (i, j)
      · subst hyx
        rw [getCell_setCell_eq hs d hi hj] at hq
        simp only [Bool.not_eq_true'] at hq
        exact absurd hq (by simpa using hd)
      · have hyne : y.1 ≠ i ∨ y.2 ≠ j := by
          by_contra hc
          push_neg at hc
          exact hyx (Prod.ext hc.1 hc.2)
        rwa [getCell_setCell_ne d hyne] at hq
    rw [emptyCount, emptyCount, ← List.countP_eq_length_filter,
      ← List.countP_eq_length_filter]
    exact List.countP_mono_left this
  · exact Nat.le_of_lt (emptyCount_setCell_lt hs hi hj h0 hd)

theorem perform_steps_nil (g : Grid) : perform_steps [] g = g := rfl

theorem perform_steps_cons (s : Nat × Nat × Nat) (steps : List (Nat × Nat × Nat))
    (g : Grid) : perform_steps (s :: steps) g =
      perform_steps steps (setCell g s.1 s.2.1 s.2.2) := rfl

theorem perform_steps_shape_wf {steps : List (Nat × Nat × Nat)} :
    ∀ {g : Grid}, Shape9 g → WF g →
      (∀ s ∈ steps, s.1 < 9 ∧ s.2.1 < 9 ∧ s.2.2 ∈ digits) →
      Shape9 (perform_steps steps g) ∧ WF (perform_steps steps g) := by
  induction steps with
  | nil => intro g hs hw _; exact ⟨hs, hw⟩
  | cons s rest ih =>
    intro g hs hw hst
    rw [perform_steps_cons]
    have hmem := hst s (List.mem_cons_self _ _)
    exact ih (shape9_setCell hs _ _ _)
      (wf_setCell hs hw (mem_digits.mp hmem.2.2).2 _ _)
      (fun t ht => hst t (List.mem_cons_of_mem _ ht))

theorem perform_steps_emptyCount_le {steps : List (Nat × Nat × Nat)} :
    ∀ {g : Grid}, Shape9 g →
      (∀ s ∈ steps, s.1 < 9 ∧ s.2.1 < 9 ∧ s.2.2 ∈ digits) →
      emptyCount (perform_steps steps g) ≤ emptyCount g := by
  induction steps with
  | nil => intro g _ _; exact Nat.le_refl _
  | cons s rest ih =>
    intro g hs hst
    rw [perform_steps_cons]
    have hmem := hst s (List.mem_cons_self _ _)
    calc emptyCount (perform_steps rest (setCell g s.1 s.2.1 s.2.2)) ≤
        emptyCount (setCell g s.1 s.2.1 s.2.2) :=
          ih (shape9_setCell hs _ _ _) (fun t ht => hst t (List.mem_cons_of_mem _ ht))
      _ ≤ emptyCount g := emptyCount_setCell_le hs hmem.1 hmem.2.1 hmem.2.2

theorem steps_decrease {g : Grid} (hs : Shape9 g) (hw : WF g)
    (hne : find_next_steps g ≠ []) :
    emptyCount (perform_steps (find_next_steps g) g) < emptyCount g := by
  rcases hsteps : find_next_steps g with _ | ⟨s, rest⟩
  · exact absurd hsteps hne
  · have hall : ∀ t ∈ find_next_steps g, t.1 < 9 ∧ t.2.1 < 9 ∧ t.2.2 ∈ digits := by
      intro t ht
      obtain ⟨h1, h2, _, h4, _⟩ := step_sound_basic hw (show (t.1, t.2.1, t.2.2) ∈ _ from ht)
      exact ⟨h1, h2, h4⟩
    rw [hsteps] at hall
    have hs0 := step_sound_basic hw
      (show (s.1, s.2.1, s.2.2) ∈ find_next_steps g by rw [hsteps]; exact List.mem_cons_self _ _)
    rw [perform_steps_cons]
    calc emptyCount (perform_steps rest (setCell g s.1 s.2.1 s.2.2)) ≤
        emptyCount (setCell g s.1 s.2.1 s.2.2) :=
          perform_steps_emptyCount_le (shape9_setCell hs _ _ _)
            (fun t ht => hall t (List.mem_cons_of_mem _ ht))
      _ < emptyCount g :=
          emptyCount_setCell_lt hs hs0.1 hs0.2.1 (by rw [hs0.2.2.1]; decide) hs0.2.2.2.1

theorem solveLoop_fixpoint : ∀ (fuel : Nat) {g : Grid}, Shape9 g → WF g →
    emptyCount g < fuel → find_next_steps (solveLoop fuel g) = [] := by
  intro fuel
  induction fuel with
  | zero => intro g _ _ h; omega
  | succ n ih =>
    intro g hs hw hcount
    rw [solveLoop_succ]
    by_cases hnil : find_next_steps g = []
    · rw [if_pos hnil]; exact hnil
    · rw [if_neg hnil]
      have hall : ∀ t ∈ find_next_steps g, t.1 < 9 ∧ t.2.1 < 9 ∧ t.2.2 ∈ digits := by
        intro t ht
        obtain ⟨h1, h2, _, h4, _⟩ := step_sound_basic hw (show (t.1, t.2.1, t.2.2) ∈ _ from ht)
        exact ⟨h1, h2, h4⟩
      obtain ⟨hs', hw'⟩ := perform_steps_shape_wf hs hw hall
      exact ih hs' hw' (by
        have := steps_decrease hs hw hnil
        omega)

theorem emptyCount_le_81 (g : Grid) : emptyCount g ≤ 81 := by
  rw [emptyCount]
  calc (allCells.filter _).length ≤ allCells.length := List.length_filter_le _ _
    _ = 81 := by decide

/-- C9: every step of a pass targets an empty cell with a candidate digit
1–9, a non-empty batch strictly decreases the number of empty cells, 82
passes always reach the fixpoint of the propagation loop, and a pass keeps
all cell values in [0,9]. -/
theorem claim_C9 {g : Grid} (hs : Shape9 g) (hw : WF g) :
    (∀ i j d, (i, j, d) ∈ find_next_steps g →
        i < 9 ∧ j < 9 ∧ getCell g i j = 0 ∧ d ∈ digits ∧
          d ∈ getPoss (get_possibilities g) i j) ∧
      (find_next_steps g ≠ [] →
        emptyCount (perform_steps (find_next_steps g) g) < emptyCount g) ∧
      WF (perform_steps (find_next_steps g) g) ∧
      find_next_steps (solveLoop 82 g) = [] := by
  have hall : ∀ t ∈ find_next_steps g, t.1 < 9 ∧ t.2.1 < 9 ∧ t.2.2 ∈ digits := by
    intro t ht
    obtain ⟨h1, h2, _, h4, _⟩ := step_sound_basic hw (show (t.1, t.2.1, t.2.2) ∈ _ from ht)
    exact ⟨h1, h2, h4⟩
  refine ⟨?_, steps_decrease hs hw, (perform_steps_shape_wf hs hw hall).2,
    solveLoop_fixpoint 82 hs hw (by have := emptyCount_le_81 g; omega)⟩
  intro i j d hmem
  obtain ⟨h1, h2, h3, h4, h5⟩ := step_sound_basic hw hmem
  refine ⟨h1, h2, h3, h4, ?_⟩
  rwa [getPoss_empty h1 h2 (by rw [h3]; decide)]

/-- Witness for C9 at the reference puzzle. -/
theorem claim_C9_witness :
    (∀ i j d, (i, j, d) ∈ find_next_steps (load sRef) →
        i < 9 ∧ j < 9 ∧ getCell (load sRef) i j = 0 ∧ d ∈ digits ∧
          d ∈ getPoss (get_possibilities (load sRef)) i j) ∧
      (find_next_steps (load sRef) ≠ [] →
        emptyCount (perform_steps (find_next_steps (load sRef)) (load sRef)) <
          emptyCount (load sRef)) ∧
      WF (perform_steps (find_next_steps (load sRef)) (load sRef)) ∧
      find_next_steps (solveLoop 82 (load sRef)) = [] :=
  claim_C9 (by decide) (by decide)

/-! ## The backtracking search restores the grid on failure -/

theorem try_combinations_zero (g : Grid) : try_combinations 0 g = (false, g) := by
  rw [try_combinations]

theorem try_combinations_succ_none {g : Grid} (fuel : Nat)
    (h : next_step g = none) : try_combinations (fuel + 1) g = (is_valid g, g) := by
  rw [try_combinations, h]

theorem try_combinations_succ_some {g : Grid} (fuel : Nat) {i j : Nat}
    {nrs : List Nat} (h : next_step g = some (i, j, nrs)) :
    try_combinations (fuel + 1) g = try_nrs fuel i j nrs g := by
  rw [try_combinations, h]
  rfl

theorem try_nrs_nil (fuel i j : Nat) (g : Grid) :
    try_nrs fuel i j [] g = (false, setCell g i j 0) := rfl

theorem try_nrs_cons (fuel i j nr : Nat) (rest : List Nat) (g : Grid) :
    try_nrs fuel i j (nr :: rest) g =
      if (try_combinations fuel (setCell g i j nr)).1 then
        try_combinations fuel (setCell g i j nr)
      else try_nrs fuel i j rest (try_combinations fuel (setCell g i j nr)).2 := rfl

theorem next_step_none_iff {g : Grid} :
    next_step g = none ↔ ∀ p ∈ allCells, getCell g p.1 p.2 ∈ digits := by
  rw [next_step, Option.map_eq_none', List.find?_eq_none]
  constructor
  · intro h p hp
    have := h p hp
    simpa using this
  · intro h p hp
    simpa using h p hp

theorem next_step_some {g : Grid} {i j : Nat} {nrs : List Nat}
    (h : next_step g = some (i, j, nrs)) :
    i < 9 ∧ j < 9 ∧ getCell g i j ∉ digits ∧ nrs = get_possible_values i j g := by
  rw [next_step, Option.map_eq_some'] at h
  obtain ⟨p, hfind, hp⟩ := h
  have hmem := mem_allCells.mp (List.mem_of_find?_eq_some hfind)
  have hpred := List.find?_some hfind
  have hp1 : p.1 = i := congrArg (fun t => t.1) hp
  have hp2 : p.2 = j := congrArg (fun t => t.2.1) hp
  have hp3 : get_possible_values p.1 p.2 g = nrs := congrArg (fun t => t.2.2) hp
  subst hp1; subst hp2
  exact ⟨hmem.1, hmem.2, by simpa using hpred, hp3.symm⟩

theorem try_combinations_restore : ∀ (fuel : Nat) (g : Grid), Shape9 g → WF g →
    (try_combinations fuel g).1 = false → (try_combinations fuel g).2 = g := by
  intro fuel
  induction fuel with
  | zero => intro g _ _ _; rw [try_combinations_zero]
  | succ n ih =>
    have hQ : ∀ (nrs : List Nat) (i j : Nat) (g : Grid), Shape9 g → WF g →
        i < 9 → j < 9 → (∀ x ∈ nrs, x ∈ digits) →
        (try_nrs n i j nrs g).1 = false →
        (try_nrs n i j nrs g).2 = setCell g i j 0 := by
      intro nrs
      induction nrs with
      | nil => intro i j g _ _ _ _ _ _; rw [try_nrs_nil]
      | cons nr rest ihn =>
        intro i j g hs hw hi hj hsub hfail
        have hnr : nr ∈ digits := hsub nr (List.mem_cons_self _ _)
        have hs' := shape9_setCell hs i j nr
        have hw' := wf_setCell hs hw (mem_digits.mp hnr).2 i j
        rw [try_nrs_cons] at hfail ⊢
        by_cases hr1 : (try_combinations n (setCell g i j nr)).1 = true
        · rw [if_pos hr1] at hfail
          exact absurd hfail (by rw [hr1]; simp)
        · rw [if_neg hr1] at hfail ⊢
          have hrg : (try_combinations n (setCell g i j nr)).2 = setCell g i j nr :=
            ih _ hs' hw' (by simpa using hr1)
          rw [hrg] at hfail ⊢
          rw [ihn i j (setCell g i j nr) hs' hw' hi hj
            (fun x hx => hsub x (List.mem_cons_of_mem _ hx)) hfail]
          exact setCell_setCell hs nr 0 hi hj
    intro g hs hw hfail
    rcases hns : next_step g with _ | ⟨i, j, nrs⟩
    · rw [try_combinations_succ_none n hns]
    · obtain ⟨hi, hj, hempty, hnrs⟩ := next_step_some hns
      have h0 : getCell g i j = 0 := by
        have := hw i hi j hj
        rw [mem_digits] at hempty
        omega
      rw [try_combinations_succ_some n hns] at hfail ⊢
      rw [hQ nrs i j g hs hw hi hj (by rw [hnrs]; exact gpv_subset_digits) hfail]
      exact setCell_self hs hi hj h0

/-- C5: a failed `brute_force` leaves the grid exactly as it found it:
every tentative assignment has been undone. -/
theorem claim_C5 {g : Grid} (hs : Shape9 g) (hw : WF g)
    (hfail : (brute_force g).1 = false) : (brute_force g).2 = g :=
  try_combinations_restore 82 g hs hw hfail

/-- Witness for C5 at `gStuck`, whose single empty cell has no candidate. -/
theorem claim_C5_witness : (brute_force gStuck).2 = gStuck :=
  claim_C5 (by decide) (by decide) (by decide)

/-! ## The search only fills empty cells; success yields a valid grid -/

theorem try_combinations_sound : ∀ (fuel : Nat) (g : Grid), Shape9 g → WF g →
    (try_combinations fuel g).1 = true →
      is_valid (try_combinations fuel g).2 = true ∧
        Shape9 (try_combinations fuel g).2 ∧ WF (try_combinations fuel g).2 ∧
          ∀ i' j', i' < 9 → j' < 9 → getCell g i' j' ∈ digits →
            getCell (try_combinations fuel g).2 i' j' = getCell g i' j' := by
  intro fuel
  induction fuel with
  | zero =>
    intro g _ _ h
    rw [try_combinations_zero] at h
    exact absurd h (by simp)
  | succ n ih =>
    have hQ : ∀ (nrs : List Nat) (i j : Nat) (g : Grid), Shape9 g → WF g →
        i < 9 → j < 9 → (∀ x ∈ nrs, x ∈ digits) →
        (try_nrs n i j nrs g).1 = true →
        is_valid (try_nrs n i j nrs g).2 = true ∧
          Shape9 (try_nrs n i j nrs g).2 ∧ WF (try_nrs n i j nrs g).2 ∧
            ∀ i' j', i' < 9 → j' < 9 → ¬(i' = i ∧ j' = j) →
              getCell g i' j' ∈ digits →
                getCell (try_nrs n i j nrs g).2 i' j' = getCell g i' j' := by
      intro nrs
      induction nrs with
      | nil =>
        intro i j g _ _ _ _ _ h
        rw [try_nrs_nil] at h
        exact absurd h (by simp)
      | cons nr rest ihn =>
        intro i j g hs hw hi hj hsub hsucc
        have hnr : nr ∈ digits := hsub nr (List.mem_cons_self _ _)
        have hs' := shape9_setCell hs i j nr
        have hw' := wf_setCell hs hw (mem_digits.mp hnr).2 i j
        rw [try_nrs_cons] at hsucc ⊢
        by_cases hr1 : (try_combinations n (setCell g i j nr)).1 = true
        · rw [if_pos hr1] at hsucc ⊢
          obtain ⟨hv, hsh, hwf, hag⟩ := ih (setCell g i j nr) hs' hw' hr1
          refine ⟨hv, hsh, hwf, fun i' j' hi' hj' hne hfil => ?_⟩
          have hneq : i' ≠ i ∨ j' ≠ j := by tauto
          have hcell : getCell (setCell g i j nr) i' j' = getCell g i' j' :=
            getCell_setCell_ne nr hneq
          rw [hag i' j' hi' hj' (by rwa [hcell]), hcell]
        · rw [if_neg hr1] at hsucc ⊢
          have hrg : (try_combinations n (setCell g i j nr)).2 = setCell g i j nr :=
            try_combinations_restore n _ hs' hw' (by simpa using hr1)
          rw [hrg] at hsucc ⊢
          obtain ⟨hv, hsh, hwf, hag⟩ := ihn i j (setCell g i j nr) hs' hw' hi hj
            (fun x hx => hsub x (List.mem_cons_of_mem _ hx)) hsucc
          refine ⟨hv, hsh, hwf, fun i' j' hi' hj' hne hfil => ?_⟩
          have hneq : i' ≠ i ∨ j' ≠ j := by tauto
          have hcell : getCell (setCell g i j nr) i' j' = getCell g i' j' :=
            getCell_setCell_ne nr hneq
          rw [hag i' j' hi' hj' hne (by rwa [hcell]), hcell]
    intro g hs hw hsucc
    rcases hns : next_step g with _ | ⟨i, j, nrs⟩
    · rw [try_combinations_succ_none n hns] at hsucc ⊢
      exact ⟨hsucc, hs, hw, fun _ _ _ _ _ => rfl⟩
    · obtain ⟨hi, hj, hempty, hnrs⟩ := next_step_some hns
      rw [try_combinations_succ_some n hns] at hsucc ⊢
      obtain ⟨hv, hsh, hwf, hag⟩ := hQ nrs i j g hs hw hi hj
        (by rw [hnrs]; exact gpv_subset_digits) hsucc
      refine ⟨hv, hsh, hwf, fun i' j' hi' hj' hfil => ?_⟩
      refine hag i' j' hi' hj' ?_ hfil
      rintro ⟨rfl, rfl⟩
      exact hempty hfil

/-! ## Propagation only fills empty cells -/

theorem perform_steps_keeps_filled {g : Grid} {steps : List (Nat × Nat × Nat)}
    (hsteps : ∀ s ∈ steps, getCell g s.1 s.2.1 = 0) :
    ∀ {c : Grid},
      (∀ i' j', i' < 9 → j' < 9 → getCell g i' j' ∈ digits →
        getCell c i' j' = getCell g i' j') →
      ∀ i' j', i' < 9 → j' < 9 → getCell g i' j' ∈ digits →
        getCell (perform_steps steps c) i' j' = getCell g i' j' := by
  induction steps with
  | nil => intro c hc; exact hc
  | cons s rest ihs =>
    intro c hc
    rw [perform_steps_cons]
    refine ihs (fun t ht => hsteps t (List.mem_cons_of_mem _ ht)) ?_
    intro i' j' hi' hj' hfil
    have hse := hsteps s (List.mem_cons_self _ _)
    have hne : i' ≠ s.1 ∨ j' ≠ s.2.1 := by
      by_contra hcon
      push_neg at hcon
      rw [hcon.1, hcon.2] at hfil
      rw [hse] at hfil
      exact absurd hfil (by decide)
    rw [getCell_setCell_ne _ hne]
    exact hc i' j' hi' hj' hfil

theorem solveLoop_extends : ∀ (fuel : Nat) (g : Grid), Shape9 g → WF g →
    Shape9 (solveLoop fuel g) ∧ WF (solveLoop fuel g) ∧
      ∀ i' j', i' < 9 → j' < 9 → getCell g i' j' ∈ digits →
        getCell (solveLoop fuel g) i' j' = getCell g i' j' := by
  intro fuel
  induction fuel with
  | zero => intro g hs hw; exact ⟨hs, hw, fun _ _ _ _ _ => rfl⟩
  | succ n ih =>
    intro g hs hw
    rw [solveLoop_succ]
    by_cases hnil : find_next_steps g = []
    · rw [if_pos hnil]
      exact ⟨hs, hw, fun _ _ _ _ _ => rfl⟩
    · rw [if_neg hnil]
      have hall : ∀ t ∈ find_next_steps g, t.1 < 9 ∧ t.2.1 < 9 ∧ t.2.2 ∈ digits := by
        intro t ht
        obtain ⟨h1, h2, _, h4, _⟩ := step_sound_basic hw (show (t.1, t.2.1, t.2.2) ∈ _ from ht)
        exact ⟨h1, h2, h4⟩
      have hempty : ∀ t ∈ find_next_steps g, getCell g t.1 t.2.1 = 0 := by
        intro t ht
        exact (step_sound_basic hw (show (t.1, t.2.1, t.2.2) ∈ _ from ht)).2.2.1
      obtain ⟨hs', hw'⟩ := perform_steps_shape_wf hs hw hall
      obtain ⟨hs2, hw2, hag2⟩ := ih (perform_steps (find_next_steps g) g) hs' hw'
      refine ⟨hs2, hw2, fun i' j' hi' hj' hfil => ?_⟩
      have h1 : getCell (perform_steps (find_next_steps g) g) i' j' = getCell g i' j' :=
        perform_steps_keeps_filled hempty (fun _ _ _ _ _ => rfl) i' j' hi' hj' hfil
      rw [hag2 i' j' hi' hj' (by rwa [h1]), h1]

/-! ## The unsolvable fixture -/

theorem gUnsolv_filled_cells :
    ∀ i, i < 9 → ∀ j, j < 9 →
      (i = 0 ∧ j = 8) ∨ (i = 1 ∧ j = 0) ∨ getCell gUnsolv i j ∈ digits := by decide

theorem gUnsolv_no_fill :
    ∀ d1, d1 ≤ 9 → ∀ d2, d2 ≤ 9 →
      is_valid (setCell (setCell gUnsolv 0 8 d1) 1 0 d2) = false := by decide

theorem gUnsolv_unsolvable : Unsolvable gUnsolv := by
  rintro sol ⟨hssol, hvsol, hagree⟩
  have hcell : ∀ i, i < 9 → ∀ j, j < 9 → getCell sol i j ∈ digits :=
    fun i hi j hj => is_valid_cell_mem hssol hvsol hi hj
  have hd1 : getCell sol 0 8 ≤ 9 :=
    (mem_digits.mp (hcell 0 (by omega) 8 (by omega))).2
  have hd2 : getCell sol 1 0 ≤ 9 :=
    (mem_digits.mp (hcell 1 (by omega) 0 (by omega))).2
  have hsu : Shape9 gUnsolv := by decide
  have hsol_eq : sol =
      setCell (setCell gUnsolv 0 8 (getCell sol 0 8)) 1 0 (getCell sol 1 0) := by
    have hs1 := shape9_setCell hsu 0 8 (getCell sol 0 8)
    apply grid_ext hssol (shape9_setCell hs1 1 0 (getCell sol 1 0))
    intro i hi j hj
    by_cases hc1 : i = 1 ∧ j = 0
    · obtain ⟨rfl, rfl⟩ := hc1
      rw [getCell_setCell_eq hs1 _ (by omega) (by omega)]
    · have hne1 : i ≠ 1 ∨ j ≠ 0 := by tauto
      rw [getCell_setCell_ne _ hne1]
      by_cases hc2 : i = 0 ∧ j = 8
      · obtain ⟨rfl, rfl⟩ := hc2
        rw [getCell_setCell_eq hsu _ (by omega) (by omega)]
      · have hne2 : i ≠ 0 ∨ j ≠ 8 := by tauto
        rw [getCell_setCell_ne _ hne2]
        exact hagree i hi j hj
          (((gUnsolv_filled_cells i hi j hj).resolve_left hc2).resolve_left hc1)
  have := gUnsolv_no_fill (getCell sol 0 8) hd1 (getCell sol 1 0) hd2
  rw [← hsol_eq] at this
  rw [hvsol] at this
  exact Bool.noConfusion this

/-- C6 counterexample: `gUnsolv` is well formed and admits no valid
completion, yet `solve` neither resets it to the original givens (the
propagation pass has filled cell (0,8)) nor returns any failure
indication (the Python `solve` always returns `None`). -/
theorem claim_C6_counterexample :
    Shape9 gUnsolv ∧ WF gUnsolv ∧ Unsolvable gUnsolv ∧ solve gUnsolv ≠ gUnsolv :=
  ⟨by decide, by decide, gUnsolv_unsolvable, by decide⟩

/-- C6 as amended: on a well-formed unsolvable grid, `solve` leaves the
grid at the propagation fixpoint of the original givens (the failed search
restores exactly its own input), and the failure of `brute_force` is
computed but discarded by `solve`. -/
theorem claim_C6_amended {g : Grid} (hs : Shape9 g) (hw : WF g)
    (hun : Unsolvable g) :
    solve g = solveLoop 82 g ∧ (brute_force (solveLoop 82 g)).1 = false := by
  obtain ⟨hs1, hw1, hext⟩ := solveLoop_extends 82 g hs hw
  have hnv : is_valid (solveLoop 82 g) = false := by
    cases hv : is_valid (solveLoop 82 g) with
    | false => rfl
    | true =>
      exact absurd (hun (solveLoop 82 g)
        ⟨hs1, hv, fun i hi j hj => hext i j hi hj⟩) (fun h => h)
  have hbf : (try_combinations 82 (solveLoop 82 g)).1 = false := by
    cases hb : (try_combinations 82 (solveLoop 82 g)).1 with
    | false => rfl
    | true =>
      obtain ⟨hv, hsh, _, hag⟩ := try_combinations_sound 82 _ hs1 hw1 hb
      refine absurd (hun (try_combinations 82 (solveLoop 82 g)).2
        ⟨hsh, hv, fun i hi j hj hfil => ?_⟩) (fun h => h)
      have h1 : getCell (solveLoop 82 g) i j = getCell g i j := hext i j hi hj hfil
      rw [hag i j hi hj (by rwa [h1]), h1]
  refine ⟨?_, hbf⟩
  rw [solve_eq, hnv]
  simp only [Bool.false_eq_true, if_false]
  exact try_combinations_restore 82 _ hs1 hw1 hbf

/-- Witness for the amended C6 at the concrete unsolvable grid. -/
theorem claim_C6_witness :
    solve gUnsolv = solveLoop 82 gUnsolv ∧
      (brute_force (solveLoop 82 gUnsolv)).1 = false :=
  claim_C6_amended (by decide) (by decide) gUnsolv_unsolvable

/-! ## Soundness of propagation with respect to a fixed completion -/

theorem nodup_getD_inj {l : List Nat} (hnd : l.Nodup) (hlen : l.length = 9)
    {k1 k2 : Nat} (h1 : k1 < 9) (h2 : k2 < 9)
    (he : l.getD k1 0 = l.getD k2 0) : k1 = k2 := by
  rw [List.getD_eq_getElem l 0 (show k1 < l.length by omega),
    List.getD_eq_getElem l 0 (show k2 < l.length by omega)] at he
  exact (hnd.getElem_inj_iff).mp he

theorem sol_mem_gpv {g sol : Grid} (hs : Shape9 g)
    (hc : Completes g sol) {i j : Nat} (hi : i < 9) (hj : j < 9)
    (h0 : getCell g i j = 0) : getCell sol i j ∈ get_possible_values i j g := by
  obtain ⟨hssol, hvsol, hagree⟩ := hc
  have hddig : getCell sol i j ∈ digits := is_valid_cell_mem hssol hvsol hi hj
  have hdne : getCell sol i j ≠ 0 := by
    rw [mem_digits] at hddig; omega
  rw [mem_gpv]
  refine ⟨hddig, ?_, ?_, ?_⟩
  · intro hmem
    rw [mem_get_field hs hi hj] at hmem
    obtain ⟨a, ha, b, hb, hcell⟩ := hmem
    have hia : i / 3 * 3 + a < 9 := by omega
    have hjb : j / 3 * 3 + b < 9 := by omega
    have hfil : getCell g (i / 3 * 3 + a) (j / 3 * 3 + b) ∈ digits := by
      rw [hcell]; exact hddig
    have hsolcell : getCell sol (i / 3 * 3 + a) (j / 3 * 3 + b) = getCell sol i j := by
      rw [hagree _ hia _ hjb hfil, hcell]
    have hne : ¬(a = i % 3 ∧ b = j % 3) := by
      rintro ⟨rfl, rfl⟩
      have h1 : i / 3 * 3 + i % 3 = i := by omega
      have h2 : j / 3 * 3 + j % 3 = j := by omega
      rw [h1, h2, h0] at hcell
      exact hdne hcell.symm
    have hperm := valid_field_perm hssol hvsol hi hj
    have hnd := (perm_digits_facts hperm).1
    have hlen := length_get_field sol hssol.1 hssol.2 hi hj (0 : Nat)
    have hk1 : a * 3 + b < 9 := by omega
    have hk2 : i % 3 * 3 + j % 3 < 9 := by omega
    have hg1 : (get_field i j sol).getD (a * 3 + b) 0 =
        getCell sol (i / 3 * 3 + a) (j / 3 * 3 + b) := by
      rw [getD_get_field sol hssol.1 hssol.2 hi hj 0 hk1]
      have e1 : (a * 3 + b) / 3 = a := by omega
      have e2 : (a * 3 + b) % 3 = b := by omega
      rw [e1, e2]
      rfl
    have hg2 : (get_field i j sol).getD (i % 3 * 3 + j % 3) 0 = getCell sol i j := by
      rw [getD_get_field sol hssol.1 hssol.2 hi hj 0 hk2]
      have e1 : (i % 3 * 3 + j % 3) / 3 = i % 3 := by omega
      have e2 : (i % 3 * 3 + j % 3) % 3 = j % 3 := by omega
      have e3 : i / 3 * 3 + i % 3 = i := by omega
      have e4 : j / 3 * 3 + j % 3 = j := by omega
      rw [e1, e2, e3, e4]
      rfl
    have := nodup_getD_inj hnd hlen hk1 hk2 (by rw [hg1, hg2, hsolcell])
    exact hne ⟨by omega, by omega⟩
  · intro hmem
    rw [mem_get_row hs hi] at hmem
    obtain ⟨j', hj', hcell⟩ := hmem
    have hfil : getCell g i j' ∈ digits := by rw [hcell]; exact hddig
    have hsolcell : getCell sol i j' = getCell sol i j := by
      rw [hagree _ hi _ hj' hfil, hcell]
    have hne : j' ≠ j := by
      rintro rfl
      rw [hcell] at h0
      exact hdne h0
    have hperm := valid_row_perm hssol hvsol hi
    have hnd := (perm_digits_facts hperm).1
    refine hne (nodup_getD_inj hnd (length_get_row hssol hi) hj' hj ?_)
    rw [getD_get_row, getD_get_row]
    exact hsolcell
  · intro hmem
    rw [mem_get_column hs.1] at hmem
    obtain ⟨i', hi', hcell⟩ := hmem
    have hfil : getCell g i' j ∈ digits := by rw [hcell]; exact hddig
    have hsolcell : getCell sol i' j = getCell sol i j := by
      rw [hagree _ hi' _ hj hfil, hcell]
    have hne : i' ≠ i := by
      rintro rfl
      rw [hcell] at h0
      exact hdne h0
    have hperm := valid_col_perm hssol hvsol hj
    have hnd := (perm_digits_facts hperm).1
    refine hne (nodup_getD_inj hnd (by rw [length_get_column, hssol.1]) hi' hi ?_)
    rw [getD_get_column hssol.1 j hi', getD_get_column hssol.1 j hi]
    exact hsolcell

theorem step_cases {g : Grid} {i j d : Nat} (h : (i, j, d) ∈ find_next_steps g) :
    (getPoss (get_possibilities g) i j).length = 1 ∧
        d ∈ getPoss (get_possibilities g) i j ∨
      d ∈ getPoss (get_possibilities g) i j ∧
        can_be_placed_elsewhere i j d (get_possibilities g) = false := by
  obtain ⟨hi, hj, hcs⟩ := mem_find_next_steps.mp h
  rw [cell_steps] at hcs
  simp only at hcs
  by_cases h1 : (getPoss (get_possibilities g) i j).length = 1
  · rw [if_pos h1] at hcs
    obtain ⟨x, hx⟩ := List.length_eq_one.mp h1
    simp only [List.mem_cons, List.not_mem_nil, or_false, Prod.mk.injEq] at hcs
    refine Or.inl ⟨h1, ?_⟩
    rw [hcs.2.2, hx]
    simp
  · rw [if_neg h1] at hcs
    rcases hf : (getPoss (get_possibilities g) i j).find?
        (fun e => !can_be_placed_elsewhere i j e (get_possibilities g)) with _ | d0
    · rw [hf] at hcs; simp at hcs
    · rw [hf] at hcs
      simp only [List.mem_cons, List.not_mem_nil, or_false, Prod.mk.injEq] at hcs
      refine Or.inr ⟨hcs.2.2 ▸ List.mem_of_find?_eq_some hf, ?_⟩
      have := List.find?_some hf
      rw [hcs.2.2]
      simpa using this

theorem step_sound_sol {g sol : Grid} (hs : Shape9 g) (hw : WF g)
    (hc : Completes g sol) {i j d : Nat} (h : (i, j, d) ∈ find_next_steps g) :
    getCell sol i j = d := by
  obtain ⟨hi, hj, h0, hddig, hdgpv⟩ := step_sound_basic hw h
  obtain ⟨hssol, hvsol, hagree⟩ := hc
  have hsolgpv : getCell sol i j ∈ get_possible_values i j g :=
    sol_mem_gpv hs ⟨hssol, hvsol, hagree⟩ hi hj h0
  have hposs : getPoss (get_possibilities g) i j = get_possible_values i j g :=
    getPoss_empty hi hj (by rw [h0]; decide)
  rcases step_cases h with ⟨hlen, hdmem⟩ | ⟨hdmem, hcb⟩
  · rw [hposs] at hlen hdmem
    obtain ⟨x, hx⟩ := List.length_eq_one.mp hlen
    rw [hx] at hdmem hsolgpv
    simp only [List.mem_cons, List.not_mem_nil, or_false] at hdmem hsolgpv
    rw [hsolgpv, ← hdmem]
  · have hshape := poss_shape g
    have hd_not_row : d ∉ get_row i g := (mem_gpv.mp (hposs ▸ hdmem)).2.2.1
    have hd_not_col : d ∉ get_column j g := (mem_gpv.mp (hposs ▸ hdmem)).2.2.2
    have hd_not_field : d ∉ get_field i j g := (mem_gpv.mp (hposs ▸ hdmem)).2.1
    rw [can_be_placed_elsewhere] at hcb
    simp only [Bool.and_eq_false_iff] at hcb
    -- a helper fact: a cell of the grid other than (i,j) that is empty and
    -- admits d as a candidate has d in its possibility entry
    have hentry : ∀ i' j', i' < 9 → j' < 9 → getCell g i' j' = 0 →
        getCell sol i' j' = d → d ∈ getPoss (get_possibilities g) i' j' := by
      intro i' j' hi' hj' h0' hsol'
      rw [getPoss_empty hi' hj' (by rw [h0']; decide)]
      rw [← hsol']
      exact sol_mem_gpv hs ⟨hssol, hvsol, hagree⟩ hi' hj' h0'
    rcases hcb with (hcol | hrow) | hfield
    · -- d cannot be placed elsewhere in column j
      have hnot : ∀ k, k < 9 → k ≠ i → d ∉ getPoss (get_possibilities g) k j := by
        intro k hk hki hmem
        have : other_contains (get_column j (get_possibilities g)) i d = true := by
          rw [other_contains_iff]
          exact ⟨k, by rw [length_get_column, hshape.1]; omega, hki,
            by rwa [getD_get_column_poss hshape.1 j hk]⟩
        rw [hcol] at this
        exact Bool.noConfusion this
      -- sol's column j contains d somewhere
      have hdc : d ∈ get_column j sol :=
        ((perm_digits_facts (valid_col_perm hssol hvsol hj)).2.1 d).mpr hddig
      rw [mem_get_column hssol.1] at hdc
      obtain ⟨i', hi', hsol'⟩ := hdc
      by_cases hii : i' = i
      · rw [← hii, hsol']
      · exfalso
        by_cases hfil : getCell g i' j ∈ digits
        · refine hd_not_col ?_
          rw [mem_get_column hs.1]
          exact ⟨i', hi', by rw [← hagree _ hi' _ hj hfil, hsol']⟩
        · have h0' : getCell g i' j = 0 := by
            have := hw i' hi' j hj
            rw [mem_digits] at hfil
            omega
          exact hnot i' hi' hii (hentry i' j hi' hj h0' hsol')
    · -- d cannot be placed elsewhere in row i
      have hnot : ∀ k, k < 9 → k ≠ j → d ∉ getPoss (get_possibilities g) i k := by
        intro k hk hkj hmem
        have : other_contains (get_row i (get_possibilities g)) j d = true := by
          rw [other_contains_iff]
          exact ⟨k, by rw [get_row, hshape.2 i hi]; omega, hkj, hmem⟩
        rw [hrow] at this
        exact Bool.noConfusion this
      have hdr : d ∈ get_row i sol :=
        ((perm_digits_facts (valid_row_perm hssol hvsol hi)).2.1 d).mpr hddig
      rw [mem_get_row hssol hi] at hdr
      obtain ⟨j', hj', hsol'⟩ := hdr
      by_cases hjj : j' = j
      · rw [← hjj, hsol']
      · exfalso
        by_cases hfil : getCell g i j' ∈ digits
        · refine hd_not_row ?_
          rw [mem_get_row hs hi]
          exact ⟨j', hj', by rw [← hagree _ hi _ hj' hfil, hsol']⟩
        · have h0' : getCell g i j' = 0 := by
            have := hw i hi j' hj'
            rw [mem_digits] at hfil
            omega
          exact hnot j' hj' hjj (hentry i j' hi hj' h0' hsol')
    · -- d cannot be placed elsewhere in the field of (i,j)
      have hnot : ∀ a b, a < 3 → b < 3 → ¬(a = i % 3 ∧ b = j % 3) →
          d ∉ getPoss (get_possibilities g) (i / 3 * 3 + a) (j / 3 * 3 + b) := by
        intro a b ha hb hab hmem
        have : other_contains (get_field i j (get_possibilities g))
            (i % 3 * 3 + j % 3) d = true := by
          rw [other_contains_iff]
          refine ⟨a * 3 + b,
            by rw [length_get_field _ hshape.1 hshape.2 hi hj []]; omega,
            by omega, ?_⟩
          rw [getD_get_field _ hshape.1 hshape.2 hi hj [] (show a * 3 + b < 9 by omega)]
          have e1 : (a * 3 + b) / 3 = a := by omega
          have e2 : (a * 3 + b) % 3 = b := by omega
          rw [e1, e2]
          exact hmem
        rw [hfield] at this
        exact Bool.noConfusion this
      have hdf : d ∈ get_field i j sol :=
        ((perm_digits_facts (valid_field_perm hssol hvsol hi hj)).2.1 d).mpr hddig
      rw [mem_get_field hssol hi hj] at hdf
      obtain ⟨a, ha, b, hb, hsol'⟩ := hdf
      by_cases hab : a = i % 3 ∧ b = j % 3
      · obtain ⟨rfl, rfl⟩ := hab
        have e3 : i / 3 * 3 + i % 3 = i := by omega
        have e4 : j / 3 * 3 + j % 3 = j := by omega
        rw [e3, e4] at hsol'
        exact hsol'
      · exfalso
        have hia : i / 3 * 3 + a < 9 := by omega
        have hjb : j / 3 * 3 + b < 9 := by omega
        by_cases hfil : getCell g (i / 3 * 3 + a) (j / 3 * 3 + b) ∈ digits
        · refine hd_not_field ?_
          rw [mem_get_field hs hi hj]
          exact ⟨a, ha, b, hb, by rw [← hagree _ hia _ hjb hfil, hsol']⟩
        · have h0' : getCell g (i / 3 * 3 + a) (j / 3 * 3 + b) = 0 := by
            have := hw _ hia _ hjb
            rw [mem_digits] at hfil
            omega
          exact hnot a b ha hb hab (hentry _ _ hia hjb h0' hsol')

theorem completes_fold {sol : Grid} :
    ∀ (steps : List (Nat × Nat × Nat)) (c : Grid),
      (∀ s ∈ steps, s.1 < 9 ∧ s.2.1 < 9 ∧ getCell sol s.1 s.2.1 = s.2.2) →
      Shape9 c →
      (∀ i, i < 9 → ∀ j, j < 9 → getCell c i j ∈ digits →
        getCell sol i j = getCell c i j) →
      ∀ i, i < 9 → ∀ j, j < 9 → getCell (perform_steps steps c) i j ∈ digits →
        getCell sol i j = getCell (perform_steps steps c) i j := by
  intro steps
  induction steps with
  | nil => intro c _ _ hag; exact hag
  | cons s rest ihs =>
    intro c hsteps hsc hag
    rw [perform_steps_cons]
    have hmem := hsteps s (List.mem_cons_self _ _)
    refine ihs _ (fun t ht => hsteps t (List.mem_cons_of_mem _ ht))
      (shape9_setCell hsc _ _ _) ?_
    intro i hi j hj hfil
    by_cases hij : i = s.1 ∧ j = s.2.1
    · obtain ⟨rfl, rfl⟩ := hij
      rw [getCell_setCell_eq hsc _ hmem.1 hmem.2.1]
      exact hmem.2.2
    · have hne : i ≠ s.1 ∨ j ≠ s.2.1 := by tauto
      rw [getCell_setCell_ne _ hne] at hfil ⊢
      exact hag i hi j hj hfil

theorem perform_steps_completes {g sol : Grid} (hs : Shape9 g) (hw : WF g)
    (hc : Completes g sol) :
    Completes (perform_steps (find_next_steps g) g) sol := by
  refine ⟨hc.1, hc.2.1, ?_⟩
  refine completes_fold (find_next_steps g) g ?_ hs (fun i hi j hj hfil => hc.2.2 i hi j hj hfil)
  intro s hmem
  have hb := step_sound_basic hw (show (s.1, s.2.1, s.2.2) ∈ _ from hmem)
  exact ⟨hb.1, hb.2.1,
    step_sound_sol hs hw hc (show (s.1, s.2.1, s.2.2) ∈ _ from hmem)⟩

theorem solveLoop_completes {sol : Grid} : ∀ (fuel : Nat) (g : Grid),
    Shape9 g → WF g → Completes g sol → Completes (solveLoop fuel g) sol := by
  intro fuel
  induction fuel with
  | zero => intro g _ _ hc; exact hc
  | succ n ih =>
    intro g hs hw hc
    rw [solveLoop_succ]
    by_cases hnil : find_next_steps g = []
    · rw [if_pos hnil]; exact hc
    · rw [if_neg hnil]
      have hall : ∀ t ∈ find_next_steps g, t.1 < 9 ∧ t.2.1 < 9 ∧ t.2.2 ∈ digits := by
        intro t ht
        obtain ⟨h1, h2, _, h4, _⟩ := step_sound_basic hw (show (t.1, t.2.1, t.2.2) ∈ _ from ht)
        exact ⟨h1, h2, h4⟩
      obtain ⟨hs', hw'⟩ := perform_steps_shape_wf hs hw hall
      exact ih _ hs' hw' (perform_steps_completes hs hw hc)

theorem try_combinations_complete :
    ∀ (fuel : Nat) (g sol : Grid), Shape9 g → WF g → Completes g sol →
      emptyCount g < fuel → (try_combinations fuel g).1 = true := by
  intro fuel
  induction fuel with
  | zero => intro g sol _ _ _ h; omega
  | succ n ih =>
    have hQ : ∀ (nrs : List Nat) (i j : Nat) (g sol : Grid), Shape9 g → WF g →
        i < 9 → j < 9 → (∀ x ∈ nrs, x ∈ digits) →
        (∃ d ∈ nrs, Completes (setCell g i j d) sol ∧
          emptyCount (setCell g i j d) < n) →
        (try_nrs n i j nrs g).1 = true := by
      intro nrs
      induction nrs with
      | nil =>
        rintro i j g sol _ _ _ _ _ ⟨d, hd, _⟩
        exact absurd hd (List.not_mem_nil _)
      | cons nr rest ihn =>
        rintro i j g sol hs hw hi hj hsub ⟨d, hdmem, hdc, hdcount⟩
        have hnr : nr ∈ digits := hsub nr (List.mem_cons_self _ _)
        have hs' := shape9_setCell hs i j nr
        have hw' := wf_setCell hs hw (mem_digits.mp hnr).2 i j
        rw [try_nrs_cons]
        by_cases hr1 : (try_combinations n (setCell g i j nr)).1 = true
        · rw [if_pos hr1]; exact hr1
        · rw [if_neg hr1]
          have hrg : (try_combinations n (setCell g i j nr)).2 = setCell g i j nr :=
            try_combinations_restore n _ hs' hw' (by simpa using hr1)
          rw [hrg]
          rcases List.mem_cons.mp hdmem with rfl | hdrest
          · exact absurd (ih (setCell g i j d) sol
              (shape9_setCell hs i j d)
              (wf_setCell hs hw (mem_digits.mp hnr).2 i j) hdc hdcount) hr1
          · refine ihn i j (setCell g i j nr) sol hs' hw' hi hj
              (fun x hx => hsub x (List.mem_cons_of_mem _ hx)) ?_
            refine ⟨d, hdrest, ?_, ?_⟩
            · rw [setCell_setCell hs nr d hi hj]; exact hdc
            · rw [setCell_setCell hs nr d hi hj]; exact hdcount
    intro g sol hs hw hc hcount
    rcases hns : next_step g with _ | ⟨i, j, nrs⟩
    · rw [try_combinations_succ_none n hns]
      have hall : ∀ p ∈ allCells, getCell g p.1 p.2 ∈ digits :=
        next_step_none_iff.mp hns
      have heq : g = sol := by
        apply grid_ext hs hc.1
        intro i hi j hj
        exact (hc.2.2 i hi j hj
          (hall (i, j) (mem_allCells.mpr ⟨hi, hj⟩))).symm
      rw [heq]
      exact hc.2.1
    · obtain ⟨hi, hj, hempty, hnrs⟩ := next_step_some hns
      have h0 : getCell g i j = 0 := by
        have := hw i hi j hj
        rw [mem_digits] at hempty
        omega
      rw [try_combinations_succ_some n hns]
      have hd0dig : getCell sol i j ∈ digits :=
        is_valid_cell_mem hc.1 hc.2.1 hi hj
      refine hQ nrs i j g sol hs hw hi hj (by rw [hnrs]; exact gpv_subset_digits)
        ⟨getCell sol i j, by rw [hnrs]; exact sol_mem_gpv hs hc hi hj h0, ?_, ?_⟩
      · refine ⟨hc.1, hc.2.1, ?_⟩
        intro i' hi' j' hj' hfil
        by_cases hij : i' = i ∧ j' = j
        · obtain ⟨rfl, rfl⟩ := hij
          rw [getCell_setCell_eq hs _ hi' hj']
        · have hne : i' ≠ i ∨ j' ≠ j := by tauto
          rw [getCell_setCell_ne _ hne] at hfil ⊢
          exact hc.2.2 i' hi' j' hj' hfil
      · have hlt := emptyCount_setCell_lt hs hi hj (by rw [h0]; decide) hd0dig
        omega

/-- C1: on every well-formed grid admitting a valid Sudoku completion,
`solve` produces a grid on which `is_valid` is true (propagation preserves
the completion, and the backtracking fallback is complete). -/
theorem claim_C1 {g : Grid} (hs : Shape9 g) (hw : WF g)
    (hsol : ∃ sol, Completes g sol) : is_valid (solve g) = true := by
  obtain ⟨sol, hc⟩ := hsol
  obtain ⟨hs1, hw1, _⟩ := solveLoop_extends 82 g hs hw
  have hc1 : Completes (solveLoop 82 g) sol := solveLoop_completes 82 g hs hw hc
  rw [solve_eq]
  by_cases hv : is_valid (solveLoop 82 g) = true
  · rw [if_pos hv]; exact hv
  · rw [if_neg hv]
    have hsucc : (try_combinations 82 (solveLoop 82 g)).1 = true :=
      try_combinations_complete 82 (solveLoop 82 g) sol hs1 hw1 hc1
        (by have := emptyCount_le_81 (solveLoop 82 g); omega)
    exact (try_combinations_sound 82 (solveLoop 82 g) hs1 hw1 hsucc).1

/-- Witness for C1 at the reference puzzle with its known solution. -/
theorem claim_C1_witness : is_valid (solve (load sRef)) = true :=
  claim_C1 (by decide) (by decide) ⟨solRef, by decide⟩

/-! ## The Load / Render round trip -/

theorem csa_go_cons (c : Char) (rest : List Char) (idx : Nat) (curr : List Char) :
    csa_go (c :: rest) idx curr =
      if idx % 9 = 8 then (curr ++ [c]) :: csa_go rest (idx + 1) []
      else csa_go rest (idx + 1) (curr ++ [c]) := rfl

theorem csa_go_mod : ∀ (s : List Char) (i i' : Nat) (curr : List Char),
    i % 9 = i' % 9 → csa_go s i curr = csa_go s i' curr := by
  intro s
  induction s with
  | nil => intro i i' curr _; rfl
  | cons c rest ih =>
    intro i i' curr h
    rw [csa_go_cons, csa_go_cons, h]
    by_cases h8 : i' % 9 = 8
    · rw [if_pos h8, if_pos h8]
      exact congrArg _ (ih (i + 1) (i' + 1) [] (by omega))
    · rw [if_neg h8, if_neg h8]
      exact ih (i + 1) (i' + 1) (curr ++ [c]) (by omega)

theorem csa_chunk : ∀ (s : List Char), 9 ≤ s.length →
    convert_string_to_array s = s.take 9 :: convert_string_to_array (s.drop 9) := by
  intro s h
  rcases s with _ | ⟨c0, s⟩; · simp at h
  rcases s with _ | ⟨c1, s⟩; · simp at h
  rcases s with _ | ⟨c2, s⟩; · simp at h
  rcases s with _ | ⟨c3, s⟩; · simp at h
  rcases s with _ | ⟨c4, s⟩; · simp at h
  rcases s with _ | ⟨c5, s⟩; · simp at h
  rcases s with _ | ⟨c6, s⟩; · simp at h
  rcases s with _ | ⟨c7, s⟩; · simp at h
  rcases s with _ | ⟨c8, rest⟩; · simp at h
  show [c0, c1, c2, c3, c4, c5, c6, c7, c8] :: csa_go rest 9 [] = _
  rw [csa_go_mod rest 9 0 [] (by omega)]
  rfl

theorem charVal_le9 (c : Char) : charVal c ≤ 9 := by
  rw [charVal]
  by_cases h : refChars.contains c
  · rw [if_pos h]
    have hm : c ∈ refChars := by simpa using h
    fin_cases hm <;> decide
  · rw [if_neg h]
    exact Nat.zero_le _

theorem repr_digit : ∀ n, n ≤ 9 → (Nat.repr n).toList = [Char.ofNat (48 + n)] := by
  intro n h
  interval_cases n <;> rfl

theorem renderRow_digits (a0 a1 a2 a3 a4 a5 a6 a7 a8 : Nat)
    (h0 : a0 ≤ 9) (h1 : a1 ≤ 9) (h2 : a2 ≤ 9) (h3 : a3 ≤ 9) (h4 : a4 ≤ 9)
    (h5 : a5 ≤ 9) (h6 : a6 ≤ 9) (h7 : a7 ≤ 9) (h8 : a8 ≤ 9) :
    renderRow [a0, a1, a2, a3, a4, a5, a6, a7, a8] =
      ['[', Char.ofNat (48 + a0), ',', ' ', Char.ofNat (48 + a1), ',', ' ',
        Char.ofNat (48 + a2), ','] ++
      [' ', Char.ofNat (48 + a3), ',', ' ', Char.ofNat (48 + a4), ',', ' ',
        Char.ofNat (48 + a5), ',', ' ', Char.ofNat (48 + a6), ',', ' ',
        Char.ofNat (48 + a7), ',', ' ', Char.ofNat (48 + a8), ']', '\n'] := by
  rw [renderRow]
  simp only [List.map_cons, List.map_nil]
  rw [repr_digit a0 h0, repr_digit a1 h1, repr_digit a2 h2, repr_digit a3 h3,
    repr_digit a4 h4, repr_digit a5 h5, repr_digit a6 h6, repr_digit a7 h7,
    repr_digit a8 h8]
  rfl

theorem equality_cell00 {a b : Grid} (h : equality a b = true) :
    getCell a 0 0 = getCell b 0 0 := by
  rw [equality, List.all_eq_true] at h
  have h0 := h 0 (by decide)
  rw [List.all_eq_true] at h0
  have h00 := h0 0 (by decide)
  simpa using h00

/-- The amended C10: re-loading the rendered text does not restore the
grid; whenever the puzzle string starts with a digit, the round-tripped
grid already differs at cell (0,0) (the rendered text starts with the
bracket of the Python list repr, which parses to 0). -/
theorem claim_C10_amended : ∀ (s : List Char), s.length = 81 →
    s.headD ' ' ∈ refChars →
    equality (load s) (load (render (load s))) = false := by
  intro s hlen hd
  rcases s with _ | ⟨c0, s⟩; · simp at hlen
  rcases s with _ | ⟨c1, s⟩; · simp at hlen
  rcases s with _ | ⟨c2, s⟩; · simp at hlen
  rcases s with _ | ⟨c3, s⟩; · simp at hlen
  rcases s with _ | ⟨c4, s⟩; · simp at hlen
  rcases s with _ | ⟨c5, s⟩; · simp at hlen
  rcases s with _ | ⟨c6, s⟩; · simp at hlen
  rcases s with _ | ⟨c7, s⟩; · simp at hlen
  rcases s with _ | ⟨c8, rest⟩; · simp at hlen
  have hc0 : c0 ∈ refChars := hd
  have hload : load (c0 :: c1 :: c2 :: c3 :: c4 :: c5 :: c6 :: c7 :: c8 :: rest) =
      [charVal c0, charVal c1, charVal c2, charVal c3, charVal c4, charVal c5,
        charVal c6, charVal c7, charVal c8] ::
        parse_sudoku (convert_string_to_array rest) := by
    rw [load, csa_chunk _ (by simp)]
    rfl
  rw [hload]
  have hrow := renderRow_digits (charVal c0) (charVal c1) (charVal c2) (charVal c3)
    (charVal c4) (charVal c5) (charVal c6) (charVal c7) (charVal c8)
    (charVal_le9 c0) (charVal_le9 c1) (charVal_le9 c2) (charVal_le9 c3)
    (charVal_le9 c4) (charVal_le9 c5) (charVal_le9 c6) (charVal_le9 c7)
    (charVal_le9 c8)
  have hrender : render
      ([charVal c0, charVal c1, charVal c2, charVal c3, charVal c4, charVal c5,
        charVal c6, charVal c7, charVal c8] ::
        parse_sudoku (convert_string_to_array rest)) =
      ['[', Char.ofNat (48 + charVal c0), ',', ' ', Char.ofNat (48 + charVal c1),
        ',', ' ', Char.ofNat (48 + charVal c2), ','] ++
      ([' ', Char.ofNat (48 + charVal c3), ',', ' ', Char.ofNat (48 + charVal c4),
        ',', ' ', Char.ofNat (48 + charVal c5), ',', ' ',
        Char.ofNat (48 + charVal c6), ',', ' ', Char.ofNat (48 + charVal c7),
        ',', ' ', Char.ofNat (48 + charVal c8), ']', '\n'] ++
        (((parse_sudoku (convert_string_to_array rest)).map renderRow).flatten ++
          ['\n'])) := by
    rw [render, List.map_cons, List.flatten_cons, hrow]
    simp only [List.append_assoc]
  rw [hrender]
  have hreload : load
      (['[', Char.ofNat (48 + charVal c0), ',', ' ', Char.ofNat (48 + charVal c1),
        ',', ' ', Char.ofNat (48 + charVal c2), ','] ++
       ([' ', Char.ofNat (48 + charVal c3), ',', ' ', Char.ofNat (48 + charVal c4),
        ',', ' ', Char.ofNat (48 + charVal c5), ',', ' ',
        Char.ofNat (48 + charVal c6), ',', ' ', Char.ofNat (48 + charVal c7),
        ',', ' ', Char.ofNat (48 + charVal c8), ']', '\n'] ++
        (((parse_sudoku (convert_string_to_array rest)).map renderRow).flatten ++
          ['\n']))) =
      ([0, charVal (Char.ofNat (48 + charVal c0)), 0, 0,
        charVal (Char.ofNat (48 + charVal c1)), 0, 0,
        charVal (Char.ofNat (48 + charVal c2)), 0]) ::
        parse_sudoku (convert_string_to_array
          (([' ', Char.ofNat (48 + charVal c3), ',', ' ',
            Char.ofNat (48 + charVal c4), ',', ' ', Char.ofNat (48 + charVal c5),
            ',', ' ', Char.ofNat (48 + charVal c6), ',', ' ',
            Char.ofNat (48 + charVal c7), ',', ' ', Char.ofNat (48 + charVal c8),
            ']', '\n'] ++
            (((parse_sudoku (convert_string_to_array rest)).map renderRow).flatten ++
              ['\n'])))) := by
    rw [load, csa_chunk _ (by simp)]
    rw [List.take_left' (by rfl), List.drop_left' (by rfl)]
    rfl
  rw [hreload]
  have hc0ne : charVal c0 ≠ 0 := by
    fin_cases hc0 <;> decide
  cases heq : equality
      ([charVal c0, charVal c1, charVal c2, charVal c3, charVal c4, charVal c5,
        charVal c6, charVal c7, charVal c8] ::
        parse_sudoku (convert_string_to_array rest)) _ with
  | false => rfl
  | true =>
    have := equality_cell00 heq
    exact absurd this (by
      show ¬(charVal c0 = (0 : Nat))
      exact hc0ne)

/-- C10 counterexample: at the source's own reference puzzle string, the
Load–Render–Load round trip does not reproduce the loaded grid (the
rendered text is the bracketed Python list repr, not an 81-character
puzzle string). -/
theorem claim_C10_counterexample :
    equality (load sRef) (load (render (load sRef))) = false := by decide

/-- Witness for the amended C10 at the all-fives puzzle string. -/
theorem claim_C10_witness :
    equality (load (List.replicate 81 '5'))
      (load (render (load (List.replicate 81 '5')))) = false :=
  claim_C10_amended (List.replicate 81 '5') (by decide) (by decide)
